import Mathlib

/-!
Verification of the littlewing chess-engine core: a shallow embedding of
`src/attack.rs` and `src/moves_generator.rs` (the mature generation of the
engine) together with the helper modules they use.  Helper modules that are
not part of the sources (bitboard.rs, common.rs, piece.rs, square.rs,
moves.rs, eval.rs) are modelled from the specification; each such
definition carries a doc comment saying so.  Machine integers (`u64`
bitboards, `u8` squares) are modelled as `Nat` with explicit truncation
where overflow can occur.
-/

namespace Littlewing

/-- Colors, modelled from the spec: WHITE = 0, BLACK = 1; `side ^ 1` is the
opponent. -/
def WHITE : Nat := 0

/-- Color BLACK. -/
def BLACK : Nat := 1

/-- Piece kind constants, modelled from the spec (common.rs is absent):
a piece is a 4-bit value with the kind in the high bits and the color in
bit 0; EMPTY is distinct.  The numeric values are fixed by the sources:
`bitboards` has 14 entries with the two color aggregates at indices 0 and 1
and the 12 colored pieces at 2..13; `attacks_to` reads them in the
sequential order pawns, knights, kings, bishops, rooks, queens; and
`KING >> 3` / `QUEEN >> 3` must give the two distinct castling-wing
indices 0 and 1.  Hence PAWN=2, KNIGHT=4, KING=6, BISHOP=8, ROOK=10,
QUEEN=12. -/
def EMPTY : Nat := 0

/-- Piece kind PAWN. -/
def PAWN : Nat := 2

/-- Piece kind KNIGHT. -/
def KNIGHT : Nat := 4

/-- Piece kind KING. -/
def KING : Nat := 6

/-- Piece kind BISHOP. -/
def BISHOP : Nat := 8

/-- Piece kind ROOK. -/
def ROOK : Nat := 10

/-- Piece kind QUEEN. -/
def QUEEN : Nat := 12

/-- Colored piece code WHITE_PAWN (= WHITE | PAWN). -/
def WHITE_PAWN : Nat := 2

/-- Colored piece code BLACK_PAWN. -/
def BLACK_PAWN : Nat := 3

/-- Colored piece code WHITE_KNIGHT. -/
def WHITE_KNIGHT : Nat := 4

/-- Colored piece code BLACK_KNIGHT. -/
def BLACK_KNIGHT : Nat := 5

/-- Colored piece code WHITE_KING. -/
def WHITE_KING : Nat := 6

/-- Colored piece code BLACK_KING. -/
def BLACK_KING : Nat := 7

/-- Colored piece code WHITE_BISHOP. -/
def WHITE_BISHOP : Nat := 8

/-- Colored piece code BLACK_BISHOP. -/
def BLACK_BISHOP : Nat := 9

/-- Colored piece code WHITE_ROOK. -/
def WHITE_ROOK : Nat := 10

/-- Colored piece code BLACK_ROOK. -/
def BLACK_ROOK : Nat := 11

/-- Colored piece code WHITE_QUEEN. -/
def WHITE_QUEEN : Nat := 12

/-- Colored piece code BLACK_QUEEN. -/
def BLACK_QUEEN : Nat := 13

/-- Kind of a piece code, modelled from the spec: the kind bits with the
color bit masked off. -/
def Piece.kind (p : Nat) : Nat := p &&& 14

/-- Color of a piece code, modelled from the spec: bit 0. -/
def Piece.color (p : Nat) : Nat := p &&& 1

/-- Squares, modelled from the spec: an integer 0..63, file x rank with
A1 = 0 and H8 = 63. -/
def A1 : Nat := 0

/-- Square B1. -/
def B1 : Nat := 1

/-- Square C1. -/
def C1 : Nat := 2

/-- Square D1. -/
def D1 : Nat := 3

/-- Square E1. -/
def E1 : Nat := 4

/-- Square F1. -/
def F1 : Nat := 5

/-- Square G1. -/
def G1 : Nat := 6

/-- Square H1. -/
def H1 : Nat := 7

/-- Sentinel square OUT, modelled from the spec: denotes absence (used for
the en-passant square). -/
def OUT : Nat := 64

/-- Vertical mirror of a square, modelled from the spec: XOR with 56 when
`side = BLACK`, identity for WHITE. -/
def Square.flip (sq side : Nat) : Nat := sq ^^^ (56 * side)

/-- Directions, modelled from the spec: signed offsets UP = +8, DOWN = -8,
LEFT = -1, RIGHT = +1, diagonals are sums. -/
def UP : Int := 8

/-- Direction DOWN. -/
def DOWN : Int := -8

/-- Direction LEFT. -/
def LEFT : Int := -1

/-- Direction RIGHT. -/
def RIGHT : Int := 1

/-- Pawn push directions per side, modelled from the spec: white pawns move
UP, black pawns move DOWN. -/
def YDIRS (side : Nat) : Int := if side = 0 then UP else DOWN

/-- Bitboard file A mask. -/
def FILE_A : Nat := 0x0101010101010101

/-- Bitboard file H mask. -/
def FILE_H : Nat := 0x8080808080808080

/-- Bitboard rank 1 mask. -/
def RANK_1 : Nat := 0xFF

/-- Bitboard rank 8 mask. -/
def RANK_8 : Nat := 0xFF00000000000000

/-- Bitwise complement of a 64-bit word (Rust `!x` on `u64`). -/
def compl64 (x : Nat) : Nat := 0xFFFFFFFFFFFFFFFF ^^^ x

/-- Directional shift of a 64-bit bitboard, modelled from the spec
(bitboard.rs is absent): left shift for nonnegative offsets, logical right
shift for negative ones, truncated to 64 bits as for Rust `u64`. -/
def shiftBB (b : Nat) (d : Int) : Nat :=
  if 0 ≤ d then (b <<< d.toNat) % 18446744073709551616 else b >>> (-d).toNat

/-- Iterated slider fill, modelled from the spec: `n` iterations of
`seed := seed ||| (seed.shift dir &&& empty)`. -/
def fillN (empty : Nat) (dir : Int) (b : Nat) : Nat → Nat
  | 0 => b
  | n + 1 =>
    let p := fillN empty dir b n
    p ||| (shiftBB p dir &&& empty)

/-- Sliding occluded fill, modelled from the spec (bitboard.rs is absent):
up to seven iterations of `seed |= (seed << dir) & empty`, producing the
set of squares a slider could occupy; seven iterations reach a fixed point
on a 64-square board. -/
def dumb7fill (sliders empty : Nat) (dir : Int) : Nat :=
  fillN empty dir sliders 7

/-- One directional ray of slider targets: the occluded fill from `from`
through `compl64 occupied &&& mask`, shifted once more along `dir` and
masked, exactly as each of the four lines of `bishop_attacks` /
`rook_attacks` in src/attack.rs. -/
def ray_attacks (f occupied : Nat) (dir : Int) (mask : Nat) : Nat :=
  mask &&& shiftBB (dumb7fill (1 <<< f) (compl64 occupied &&& mask) dir) dir

/-- Bishop attacks from a square under an occupancy, from src/attack.rs:
four dumb7 fills along UP+LEFT (+7), DOWN+LEFT (-9), DOWN+RIGHT (-7) and
UP+RIGHT (+9), each masked with `0x7F7F7F7F7F7F7F7F` or
`0xFEFEFEFEFEFEFEFE` on both the fill input and the post-shift result. -/
def bishop_attacks (f occupied : Nat) : Nat :=
  ray_attacks f occupied (UP + LEFT) 0x7F7F7F7F7F7F7F7F |||
  ray_attacks f occupied (DOWN + LEFT) 0x7F7F7F7F7F7F7F7F |||
  ray_attacks f occupied (DOWN + RIGHT) 0xFEFEFEFEFEFEFEFE |||
  ray_attacks f occupied (UP + RIGHT) 0xFEFEFEFEFEFEFEFE

/-- Rook attacks from a square under an occupancy, from src/attack.rs:
four dumb7 fills along UP, DOWN, LEFT, RIGHT with the full-board mask
vertically and the file-exclusion masks horizontally. -/
def rook_attacks (f occupied : Nat) : Nat :=
  ray_attacks f occupied UP 0xFFFFFFFFFFFFFFFF |||
  ray_attacks f occupied DOWN 0xFFFFFFFFFFFFFFFF |||
  ray_attacks f occupied LEFT 0x7F7F7F7F7F7F7F7F |||
  ray_attacks f occupied RIGHT 0xFEFEFEFEFEFEFEFE

/-- Pawn attack table from src/attack.rs (the `lazy_static` builder,
unrolled): for each side and square, the two diagonal forward squares,
each masked against the wrapping file (`files = [FILE_H, FILE_A]`,
`xdirs = [LEFT, RIGHT]`, `ydirs = [DOWN, UP]` indexed by `side ^ 1`). -/
def PAWN_ATTACKS (side square : Nat) : Nat :=
  (shiftBB (1 <<< square) ((if side ^^^ 1 = 0 then DOWN else UP) + LEFT) &&& compl64 FILE_H) |||
  (shiftBB (1 <<< square) ((if side ^^^ 1 = 0 then DOWN else UP) + RIGHT) &&& compl64 FILE_A)

/-- Builds a bitboard from a predicate over the 64 squares. -/
def bitsOf (p : Nat → Bool) : Nat :=
  (List.range 64).foldr (fun t acc => if p t then acc ||| (1 <<< t) else acc) 0

/-- Knight reachability predicate: file and rank distances are (1,2) or
(2,1). -/
def knightReach (s t : Nat) : Bool :=
  let fd := ((s % 8 : Int) - (t % 8 : Int)).natAbs
  let rd := ((s / 8 : Int) - (t / 8 : Int)).natAbs
  (fd == 1 && rd == 2) || (fd == 2 && rd == 1)

/-- King reachability predicate: the 8-neighborhood (Chebyshev distance
exactly 1). -/
def kingReach (s t : Nat) : Bool :=
  let fd := ((s % 8 : Int) - (t % 8 : Int)).natAbs
  let rd := ((s / 8 : Int) - (t / 8 : Int)).natAbs
  fd ≤ 1 && rd ≤ 1 && !(fd == 0 && rd == 0)

/-- Precomputed knight and king masks, modelled from the spec (the table
builder is not among the sources): for knight and king, the L-shape and
the 8-neighborhood respectively, excluding squares that would wrap around
the files. -/
def PIECE_MASKS (kind square : Nat) : Nat :=
  if kind = KNIGHT then bitsOf (knightReach square)
  else if kind = KING then bitsOf (kingReach square)
  else 0

/-- Attack set of a single piece on a square under an occupancy, from
src/attack.rs `piece_attacks`: dispatch on the piece kind; PAWN uses the
attacking color's table, KNIGHT and KING the precomputed masks, sliders
the on-the-fly fills; the `unreachable!()` arm is modelled as 0. -/
def piece_attacks (piece square occupied : Nat) : Nat :=
  if Piece.kind piece = PAWN then PAWN_ATTACKS (Piece.color piece) square
  else if Piece.kind piece = KNIGHT then PIECE_MASKS KNIGHT square
  else if Piece.kind piece = KING then PIECE_MASKS KING square
  else if Piece.kind piece = BISHOP then bishop_attacks square occupied
  else if Piece.kind piece = ROOK then rook_attacks square occupied
  else if Piece.kind piece = QUEEN then bishop_attacks square occupied ||| rook_attacks square occupied
  else 0

/-- Packed move, modelled from the spec (moves.rs is absent): from-square,
to-square and a 4-bit kind; the null move is a distinguished value with
`from == to`. -/
structure Move where
  from' : Nat
  to' : Nat
  kind : Nat
deriving DecidableEq, Repr

/-- Move kind QUIET_MOVE. -/
def QUIET_MOVE : Nat := 0

/-- Move kind DOUBLE_PAWN_PUSH. -/
def DOUBLE_PAWN_PUSH : Nat := 1

/-- Move kind KING_CASTLE. -/
def KING_CASTLE : Nat := 2

/-- Move kind QUEEN_CASTLE. -/
def QUEEN_CASTLE : Nat := 3

/-- Move kind CAPTURE. -/
def CAPTURE : Nat := 4

/-- Move kind EN_PASSANT. -/
def EN_PASSANT : Nat := 5

/-- Move kind KNIGHT_PROMOTION. -/
def KNIGHT_PROMOTION : Nat := 8

/-- Move kind BISHOP_PROMOTION. -/
def BISHOP_PROMOTION : Nat := 9

/-- Move kind ROOK_PROMOTION. -/
def ROOK_PROMOTION : Nat := 10

/-- Move kind QUEEN_PROMOTION. -/
def QUEEN_PROMOTION : Nat := 11

/-- Null-move test, modelled from the spec: `from == to`. -/
def Move.is_null (m : Move) : Bool := m.from' == m.to'

/-- Capture flag, modelled from the spec: bit 0 of the kind nibble is the
capture flag (CAPTURE = 4 set in the kind). -/
def Move.is_capture (m : Move) : Bool := m.kind &&& CAPTURE != 0

/-- Promotion flag, modelled from the spec: bit 3 of the kind. -/
def Move.is_promotion (m : Move) : Bool := m.kind &&& 8 != 0

/-- Castle test, modelled from the spec: kinds KING_CASTLE and
QUEEN_CASTLE. -/
def Move.is_castle (m : Move) : Bool := m.kind == KING_CASTLE || m.kind == QUEEN_CASTLE

/-- En-passant test, modelled from the spec. -/
def Move.is_en_passant (m : Move) : Bool := m.kind == EN_PASSANT

/-- Castling side of a castle move, modelled from the spec: returns KING or
QUEEN. -/
def Move.castle_kind (m : Move) : Nat := if m.kind = KING_CASTLE then KING else QUEEN

/-- Promoted piece kind of a promotion move, modelled from the spec: the
two low bits of the kind select KNIGHT, BISHOP, ROOK or QUEEN. -/
def Move.promotion_kind (m : Move) : Nat :=
  if m.kind &&& 3 = 0 then KNIGHT
  else if m.kind &&& 3 = 1 then BISHOP
  else if m.kind &&& 3 = 2 then ROOK
  else QUEEN

/-- Castling rights: 2 x 2 booleans indexed by side and wing, modelled from
the spec. -/
structure CastlingRights where
  wk : Bool
  wq : Bool
  bk : Bool
  bq : Bool
deriving DecidableEq, Repr

/-- Reads `castling_rights[side][wing]`. -/
def CastlingRights.get (c : CastlingRights) (side wing : Nat) : Bool :=
  if side = 0 then (if wing = 0 then c.wk else c.wq)
  else (if wing = 0 then c.bk else c.bq)

/-- Writes `castling_rights[side][wing]`. -/
def CastlingRights.set (c : CastlingRights) (side wing : Nat) (b : Bool) : CastlingRights :=
  if side = 0 then
    (if wing = 0 then { c with wk := b } else { c with wq := b })
  else
    (if wing = 0 then { c with bk := b } else { c with bq := b })

/-- Position record, modelled from the spec: side-to-move, castling
rights, en-passant target square or OUT, halfmove clock, Zobrist hash, and
the captured piece recorded for unmake.  Pushed on a stack at each
`make_move`. -/
structure Position where
  side : Nat
  castling_rights : CastlingRights
  en_passant : Nat
  halfmoves_count : Nat
  hash : Nat
  capture : Nat
deriving DecidableEq, Repr

instance : Inhabited Position :=
  ⟨{ side := 0, castling_rights := ⟨false, false, false, false⟩, en_passant := OUT,
     halfmoves_count := 0, hash := 0, capture := EMPTY }⟩

/-- Tests a castling right of a position, modelled from the spec: the wing
constant (KING or QUEEN) is reduced to the wing index by `>> 3`. -/
def Position.has_castling_right_on (p : Position) (side wing : Nat) : Bool :=
  p.castling_rights.get side (wing >>> 3)

/-- Zobrist key tables, modelled from the spec: positional keys per
(piece, square), castling keys per (side, wing), en-passant keys per
square, and one side key. -/
structure Zobrist where
  positions : Nat → Nat → Nat
  castling_rights : Nat → Nat → Nat
  en_passant : Nat → Nat
  side : Nat

/-- Scored move-list entry, modelled from the spec. -/
structure ScoredMove where
  item : Move
  score : Nat
deriving DecidableEq, Repr

instance : Inhabited ScoredMove := ⟨⟨⟨0, 0, 0⟩, 0⟩⟩

/-- Generation stage BestMove. -/
def stageBestMove : Nat := 0

/-- Generation stage Capture. -/
def stageCapture : Nat := 1

/-- Generation stage KillerMove. -/
def stageKillerMove : Nat := 2

/-- Generation stage QuietMove. -/
def stageQuietMove : Nat := 3

/-- Move list with staged cursor, modelled from the spec (moves.rs is
absent): scored entries, a cursor index, the stage of the linear state
machine BestMove -> Capture -> KillerMove -> QuietMove, the current search
ply, two killer slots per ply, and the `skip_killers` / `skip_ordering`
flags. -/
structure Moves where
  lst : List ScoredMove
  idx : Nat
  stage : Nat
  ply : Nat
  killers : Nat → Nat → Move
  skip_killers : Bool
  skip_ordering : Bool

/-- Reads killer slot `i` at the current ply, modelled from the spec. -/
def Moves.get_killer_move (ms : Moves) (i : Nat) : Move := ms.killers ms.ply i

/-- Advances the ply cursor (`moves.inc()` in make_move). -/
def Moves.inc (ms : Moves) : Moves := { ms with ply := ms.ply + 1 }

/-- Retreats the ply cursor (`moves.dec()` in undo_move). -/
def Moves.dec (ms : Moves) : Moves := { ms with ply := ms.ply - 1 }

/-- Last-stage test, modelled from the spec: QuietMove is the last stage
entered by staged generation. -/
def Moves.is_last_stage (ms : Moves) : Bool := ms.stage == stageQuietMove

/-- Advances the stage cursor, modelled from the spec. -/
def Moves.next_stage (ms : Moves) : Moves := { ms with stage := ms.stage + 1 }

/-- Appends a move with score 0, modelled from the spec. -/
def Moves.add_move (ms : Moves) (m : Move) : Moves :=
  { ms with lst := ms.lst ++ [⟨m, 0⟩] }

/-- Pops the next scored move under the cursor, modelled from the spec:
returns none at the end of the list, otherwise the entry and advances. -/
def Moves.next (ms : Moves) : Option Move × Moves :=
  if ms.idx < ms.lst.length then
    (some (ms.lst.getD ms.idx default).item, { ms with idx := ms.idx + 1 })
  else (none, ms)

/-- Length of the move list. -/
def Moves.len (ms : Moves) : Nat := ms.lst.length

/-- Swaps two entries of the move list, modelled from the spec. -/
def Moves.swap (ms : Moves) (i j : Nat) : Moves :=
  { ms with lst := (ms.lst.set i (ms.lst.getD j default)).set j (ms.lst.getD i default) }

/-- Game state, from src: mailbox board (64 piece codes), the 14 bitboards
(two color aggregates at indices 0 and 1, colored pieces at 2..13), the
position stack whose head is the current position, the Zobrist tables and
the move list.  The mailbox and the bitboards are total functions on Nat;
only indices below 64 (resp. 14) are ever used by the embedded code. -/
structure Game where
  board : Nat → Nat
  bitboards : Nat → Nat
  positions : List Position
  zobrist : Zobrist
  moves : Moves

/-- Pointwise update of a function, used for mailbox writes and bitboard
writes. -/
def upd {α : Type} (f : Nat → α) (i : Nat) (v : α) : Nat → α :=
  fun j => if j = i then v else f j

/-- Rust `self.bitboards[i].toggle(sq)`: XOR of bit `sq` into bitboard
`i`. -/
def toggleBB (bbs : Nat → Nat) (i sq : Nat) : Nat → Nat :=
  upd bbs i (bbs i ^^^ (1 <<< sq))

/-- Top of the position stack (Rust `self.positions.top()`). -/
def Game.top (g : Game) : Position := g.positions.headI

/-- Attack test from src/attack.rs `is_attacked`: true iff any opponent
piece attacks `square`, via the superpiece trick, testing pawns, knights,
the king, bishops or queens on bishop rays, rooks or queens on rook rays,
in that order. -/
def is_attacked (g : Game) (square side : Nat) : Bool :=
  let occupied := g.bitboards WHITE ||| g.bitboards BLACK
  (PAWN_ATTACKS side square &&& g.bitboards ((side ^^^ 1) ||| PAWN) != 0) ||
  (PIECE_MASKS KNIGHT square &&& g.bitboards ((side ^^^ 1) ||| KNIGHT) != 0) ||
  (PIECE_MASKS KING square &&& g.bitboards ((side ^^^ 1) ||| KING) != 0) ||
  (bishop_attacks square occupied &&&
    (g.bitboards ((side ^^^ 1) ||| BISHOP) ||| g.bitboards ((side ^^^ 1) ||| QUEEN)) != 0) ||
  (rook_attacks square occupied &&&
    (g.bitboards ((side ^^^ 1) ||| ROOK) ||| g.bitboards ((side ^^^ 1) ||| QUEEN)) != 0)

/-- Bitboard of all pieces of both colors attacking `square` under the
supplied occupancy, from src/attack.rs `attacks_to`. -/
def attacks_to (g : Game) (square occupied : Nat) : Nat :=
  let wpawns := g.bitboards WHITE_PAWN
  let bpawns := g.bitboards BLACK_PAWN
  let knights := g.bitboards WHITE_KNIGHT ||| g.bitboards BLACK_KNIGHT
  let kings := g.bitboards WHITE_KING ||| g.bitboards BLACK_KING
  let bishops := g.bitboards WHITE_BISHOP ||| g.bitboards BLACK_BISHOP
  let rooks := g.bitboards WHITE_ROOK ||| g.bitboards BLACK_ROOK
  let queens := g.bitboards WHITE_QUEEN ||| g.bitboards BLACK_QUEEN
  (wpawns &&& piece_attacks BLACK_PAWN square occupied) |||
  (bpawns &&& piece_attacks WHITE_PAWN square occupied) |||
  (knights &&& piece_attacks KNIGHT square occupied) |||
  (kings &&& piece_attacks KING square occupied) |||
  ((queens ||| bishops) &&& piece_attacks BISHOP square occupied) |||
  ((queens ||| rooks) &&& piece_attacks ROOK square occupied)

/-- En-passant target square recorded after a double pawn push, from
src/moves_generator.rs make_move:
`((m.from().flip(side) + UP) as Square).flip(side)` with the `u8` cast
modelled as reduction mod 256. -/
def epTarget (f side : Nat) : Nat :=
  (((Square.flip f side : Int) + UP).toNat % 256) ^^^ (56 * side)

/-- Square of the pawn captured en passant, from src/moves_generator.rs:
`((m.to().flip(side) + DOWN) as Square).flip(side)`; the `i8` to `u8` cast
is modelled as addition of 248 mod 256. -/
def epVictim (t side : Nat) : Nat :=
  (((Square.flip t side) + 248) % 256) ^^^ (56 * side)

/-- Mailbox effect of src/moves_generator.rs `make_move` (the source
interleaves the field updates of one atomic step; every read is of the
pre-state, so the per-field effects are embedded as separate functions):
clear the from-square, move the rook between its corner and its castling
square for a castle, place the moved piece or its promoted form on the
to-square, and clear the square of a pawn captured en passant.  `piece`
and `side` are the pre-read `board[m.from()]` and side to move. -/
def make_board (b : Nat → Nat) (m : Move) (piece side : Nat) : Nat → Nat :=
  let board1 := upd b m.from' EMPTY
  let board2 :=
    if m.is_castle then
      let rook_from := if m.castle_kind = KING then Square.flip H1 side else Square.flip A1 side
      let rook_to := if m.castle_kind = KING then Square.flip F1 side else Square.flip D1 side
      upd (upd board1 rook_from EMPTY) rook_to (side ||| ROOK)
    else board1
  let board3 :=
    if m.is_promotion then upd board2 m.to' (side ||| m.promotion_kind)
    else upd board2 m.to' piece
  if m.kind = EN_PASSANT then upd board3 (epVictim m.to' side) EMPTY else board3

/-- Bitboard effect of src/moves_generator.rs `make_move`: toggles the
moved piece off its from-square and onto its to-square (promoted form for
promotions), the castling rook toggles, the side-aggregate toggles, the
captured piece and opponent-aggregate toggles, and the en-passant victim
toggles.  `piece` and `capture` are the pre-read mailbox contents. -/
def make_bitboards (bbs : Nat → Nat) (m : Move) (piece capture side : Nat) : Nat → Nat :=
  let bitboards1 := toggleBB bbs piece m.from'
  let bitboards2 :=
    if m.is_castle then
      let rook := side ||| ROOK
      let rook_from := if m.castle_kind = KING then Square.flip H1 side else Square.flip A1 side
      let rook_to := if m.castle_kind = KING then Square.flip F1 side else Square.flip D1 side
      toggleBB (toggleBB (toggleBB (toggleBB bitboards1 rook rook_from) rook rook_to) side rook_from) side rook_to
    else bitboards1
  let bitboards3 :=
    if m.is_promotion then toggleBB bitboards2 (side ||| m.promotion_kind) m.to'
    else toggleBB bitboards2 piece m.to'
  let bitboards4 := toggleBB (toggleBB bitboards3 side m.from') side m.to'
  let bitboards5 :=
    if capture ≠ EMPTY then toggleBB (toggleBB bitboards4 capture m.to') (side ^^^ 1) m.to'
    else bitboards4
  if m.kind = EN_PASSANT then
    let square := epVictim m.to' side
    toggleBB (toggleBB bitboards5 ((side ^^^ 1) ||| PAWN) square) (side ^^^ 1) square
  else bitboards5

/-- Scalar-field effect of src/moves_generator.rs `make_move` (non-null
moves): the new top position, with the castling-rights updates, the
halfmove-clock resets, the en-passant bookkeeping and every incremental
hash XOR in source order. -/
def make_position (g : Game) (m : Move) : Position :=
  let old_position := g.top
  let side := old_position.side
  let piece := g.board m.from'
  let capture := g.board m.to'
  let hm0 := old_position.halfmoves_count + 1
  let hash1 := old_position.hash ^^^ g.zobrist.positions piece m.from'
  let cr0 := old_position.castling_rights
  let kingWing := KING >>> 3
  let queenWing := QUEEN >>> 3
  let crhh :=
    if Piece.kind piece = KING then
      (((cr0.set side kingWing false).set side queenWing false),
       hash1 ^^^ g.zobrist.castling_rights side kingWing
             ^^^ g.zobrist.castling_rights side queenWing,
       if cr0.get side kingWing ∨ cr0.get side queenWing then 0 else hm0)
    else if Piece.kind piece = ROOK then
      let step1 :=
        if m.from' = Square.flip H1 side then
          (cr0.set side kingWing false,
           hash1 ^^^ g.zobrist.castling_rights side kingWing,
           if cr0.get side kingWing then 0 else hm0)
        else (cr0, hash1, hm0)
      if m.from' = Square.flip A1 side then
        (step1.1.set side queenWing false,
         step1.2.1 ^^^ g.zobrist.castling_rights side queenWing,
         if step1.1.get side queenWing then 0 else step1.2.2)
      else step1
    else if Piece.kind piece = PAWN then (cr0, hash1, 0)
    else (cr0, hash1, hm0)
  let cr1 := crhh.1
  let hash2 := crhh.2.1
  let hm1 := crhh.2.2
  let crh2 :=
    if Piece.kind capture = ROOK then
      let step1 :=
        if m.to' = Square.flip H1 (side ^^^ 1) then
          (cr1.set (side ^^^ 1) kingWing false,
           hash2 ^^^ g.zobrist.castling_rights (side ^^^ 1) kingWing)
        else (cr1, hash2)
      if m.to' = Square.flip A1 (side ^^^ 1) then
        (step1.1.set (side ^^^ 1) queenWing false,
         step1.2 ^^^ g.zobrist.castling_rights (side ^^^ 1) queenWing)
      else step1
    else (cr1, hash2)
  let cr2 := crh2.1
  let hash3 := crh2.2
  let castleHH :=
    if m.is_castle then
      let rook := side ||| ROOK
      let rook_from := if m.castle_kind = KING then Square.flip H1 side else Square.flip A1 side
      let rook_to := if m.castle_kind = KING then Square.flip F1 side else Square.flip D1 side
      (hash3 ^^^ g.zobrist.positions rook rook_from ^^^ g.zobrist.positions rook rook_to, (0 : Nat))
    else (hash3, hm1)
  let hash4 := castleHH.1
  let hm2 := castleHH.2
  let placeHH :=
    if m.is_promotion then
      (hash4 ^^^ g.zobrist.positions (side ||| m.promotion_kind) m.to', (0 : Nat))
    else (hash4 ^^^ g.zobrist.positions piece m.to', hm2)
  let hash5 := placeHH.1
  let hm3 := placeHH.2
  let ep_new := if m.kind = DOUBLE_PAWN_PUSH then epTarget m.from' side else OUT
  let hash6 :=
    if old_position.en_passant ≠ OUT then hash5 ^^^ g.zobrist.en_passant old_position.en_passant
    else hash5
  let hash7 := if ep_new ≠ OUT then hash6 ^^^ g.zobrist.en_passant ep_new else hash6
  let capHH :=
    if capture ≠ EMPTY then (hash7 ^^^ g.zobrist.positions capture m.to', (0 : Nat))
    else (hash7, hm3)
  let hash8 := capHH.1
  let hm4 := capHH.2
  let epHH :=
    if m.kind = EN_PASSANT then
      (hash8 ^^^ g.zobrist.positions ((side ^^^ 1) ||| PAWN) (epVictim m.to' side), (0 : Nat))
    else (hash8, hm4)
  let hash9 := epHH.1
  let hm5 := epHH.2
  { side := side ^^^ 1
    castling_rights := cr2
    en_passant := ep_new
    halfmoves_count := hm5
    hash := hash9 ^^^ g.zobrist.side
    capture := capture }

/-- State transformer of src/moves_generator.rs `make_move`: the null-move
shortcut toggles the side, XORs the side key, clears en passant and
pushes; otherwise the mailbox, bitboard and scalar effects above are
applied, the new position is pushed and the move-list ply advances. -/
def make_move (g : Game) (m : Move) : Game :=
  let old_position := g.top
  let side := old_position.side
  if m.is_null then
    let np := { old_position with
      halfmoves_count := old_position.halfmoves_count + 1
      side := side ^^^ 1
      hash := old_position.hash ^^^ g.zobrist.side
      en_passant := OUT }
    { g with positions := np :: g.positions, moves := g.moves.inc }
  else
    { g with
      board := make_board g.board m (g.board m.from') side
      bitboards := make_bitboards g.bitboards m (g.board m.from') (g.board m.to') side
      positions := make_position g m :: g.positions
      moves := g.moves.inc }

/-- Mailbox effect of src/moves_generator.rs `undo_move`: the rook goes
back to its corner for a castle, the from-square gets the moved piece back
(a pawn for promotions), the en-passant victim pawn is restored, and the
to-square gets the recorded capture.  `piece` is the pre-read
`board[m.to()]` and `side` the side that made the move. -/
def undo_board (b : Nat → Nat) (m : Move) (piece capture side : Nat) : Nat → Nat :=
  let board1 :=
    if m.is_castle then
      let rook_from := if m.castle_kind = KING then Square.flip H1 side else Square.flip A1 side
      let rook_to := if m.castle_kind = KING then Square.flip F1 side else Square.flip D1 side
      upd (upd b rook_from (side ||| ROOK)) rook_to EMPTY
    else b
  let board2 :=
    if m.is_promotion then upd board1 m.from' (side ||| PAWN)
    else upd board1 m.from' piece
  let board3 :=
    if m.kind = EN_PASSANT then upd board2 (epVictim m.to' side) ((side ^^^ 1) ||| PAWN)
    else board2
  upd board3 m.to' capture

/-- Bitboard effect of src/moves_generator.rs `undo_move`: the exact
toggles of `make_move`, reconstructed from the move fields and the
recovered capture. -/
def undo_bitboards (bbs : Nat → Nat) (m : Move) (piece capture side : Nat) : Nat → Nat :=
  let bitboards1 :=
    if m.is_castle then
      let rook := side ||| ROOK
      let rook_from := if m.castle_kind = KING then Square.flip H1 side else Square.flip A1 side
      let rook_to := if m.castle_kind = KING then Square.flip F1 side else Square.flip D1 side
      toggleBB (toggleBB (toggleBB (toggleBB bbs rook rook_from) rook rook_to) side rook_from) side rook_to
    else bbs
  let bitboards2 :=
    if m.is_promotion then toggleBB bitboards1 (side ||| PAWN) m.from'
    else toggleBB bitboards1 piece m.from'
  let bitboards3 :=
    if m.kind = EN_PASSANT then
      let square := epVictim m.to' side
      toggleBB (toggleBB bitboards2 ((side ^^^ 1) ||| PAWN) square) (side ^^^ 1) square
    else bitboards2
  let bitboards4 := toggleBB bitboards3 piece m.to'
  let bitboards5 := toggleBB (toggleBB bitboards4 side m.from') side m.to'
  if capture ≠ EMPTY then toggleBB (toggleBB bitboards5 capture m.to') (side ^^^ 1) m.to'
  else bitboards5

/-- State transformer of src/moves_generator.rs `undo_move`: pops the
outgoing position (reading the recorded capture from it), then rebuilds
mailbox and bitboards from the move fields; the scalar position fields
come back wholesale from the stack. -/
def undo_move (g : Game) (m : Move) : Game :=
  let piece := g.board m.to'
  let capture := g.top.capture
  let positions1 := g.positions.tail
  let moves1 := g.moves.dec
  if m.is_null then
    { g with positions := positions1, moves := moves1 }
  else
    let side := positions1.headI.side
    { g with
      board := undo_board g.board m piece capture side
      bitboards := undo_bitboards g.bitboards m piece capture side
      positions := positions1
      moves := moves1 }


/-- Castling path masks, modelled from the spec (common.rs is absent): the
squares strictly between king and rook that must be empty; F1,G1 for the
king side and B1,C1,D1 for the queen side, mirrored for black. -/
def CASTLING_MASKS (side wing : Nat) : Nat :=
  if wing = 0 then
    (1 <<< Square.flip F1 side) ||| (1 <<< Square.flip G1 side)
  else
    (1 <<< Square.flip B1 side) ||| (1 <<< Square.flip C1 side) ||| (1 <<< Square.flip D1 side)

/-- King-side castling admission, from src/moves_generator.rs
`can_king_castle`: path empty per the mask, king on E1, rook on H1
(side-mirrored), right still held, and E1, F1, G1 not attacked. -/
def can_king_castle (g : Game) (side : Nat) : Bool :=
  let position := g.top
  let occupied := g.bitboards WHITE ||| g.bitboards BLACK
  let mask := CASTLING_MASKS side (KING >>> 3)
  (compl64 occupied &&& mask == mask) &&
  (g.board (Square.flip E1 side) == side ||| KING) &&
  (g.board (Square.flip H1 side) == side ||| ROOK) &&
  position.has_castling_right_on side KING &&
  !(is_attacked g (Square.flip E1 side) side) &&
  !(is_attacked g (Square.flip F1 side) side) &&
  !(is_attacked g (Square.flip G1 side) side)

/-- Queen-side castling admission, from src/moves_generator.rs
`can_queen_castle`: path B1,C1,D1 empty, king on E1, rook on A1, right
held, and E1, D1, C1 not attacked (B1 is only required to be empty). -/
def can_queen_castle (g : Game) (side : Nat) : Bool :=
  let position := g.top
  let occupied := g.bitboards WHITE ||| g.bitboards BLACK
  let mask := CASTLING_MASKS side (QUEEN >>> 3)
  (compl64 occupied &&& mask == mask) &&
  (g.board (Square.flip E1 side) == side ||| KING) &&
  (g.board (Square.flip A1 side) == side ||| ROOK) &&
  position.has_castling_right_on side QUEEN &&
  !(is_attacked g (Square.flip E1 side) side) &&
  !(is_attacked g (Square.flip D1 side) side) &&
  !(is_attacked g (Square.flip C1 side) side)

/-- Wing dispatch for castling, from src/moves_generator.rs
`can_castle_on`; the `unreachable!()` arm is modelled as false. -/
def can_castle_on (g : Game) (side wing : Nat) : Bool :=
  if wing = QUEEN then can_queen_castle g side
  else if wing = KING then can_king_castle g side
  else false

/-- Wrap of a signed square computation into a `u8`, used by the pawn
stepping of `is_legal_move`. -/
def u8wrapInt (z : Int) : Nat := (z.emod 256).toNat

/-- Pseudo-legal move validator from src/moves_generator.rs
`is_legal_move`: rejects null moves, empty or wrong-color origins, and
kind/piece mismatches; validates the en-passant target square; defers
castling to the castling predicates; and otherwise requires the piece's
attack set (or the pawn push path) to reach the destination with the
appropriate capture semantics. -/
def is_legal_move (g : Game) (m : Move) : Bool :=
  if m.is_null then false
  else
  let position := g.top
  let side := position.side
  let p := g.board m.from'
  if p = EMPTY then false
  else if Piece.color p ≠ side then false
  else if (m.is_promotion || m.kind == DOUBLE_PAWN_PUSH) && Piece.kind p ≠ PAWN then false
  else if m.is_en_passant then
    (Piece.kind p == PAWN) && (m.to' == position.en_passant)
  else if m.is_castle then can_castle_on g side m.castle_kind
  else
    let pieces := g.bitboards side
    let targets := g.bitboards (side ^^^ 1)
    let occupied := pieces ||| targets
    let attacks := piece_attacks p m.from' occupied
    if m.is_capture then (attacks &&& targets).testBit m.to'
    else if Piece.kind p = PAWN then
      let d := YDIRS side
      let s1 := u8wrapInt ((m.from' : Int) + d)
      let step :=
        if m.kind = DOUBLE_PAWN_PUSH then
          (if occupied.testBit s1 then none else some (u8wrapInt ((s1 : Int) + d)))
        else some s1
      match step with
      | none => false
      | some s =>
        if m.to' ≠ s then false
        else if (RANK_1 ||| RANK_8).testBit s && !m.is_promotion then false
        else !occupied.testBit m.to'
    else (attacks &&& compl64 occupied).testBit m.to'

/-- Piece list of the MVV-LVA table builder, from src/moves_generator.rs:
`vec![EMPTY, PAWN, KNIGHT, BISHOP, ROOK, QUEEN, KING]`. -/
def mvvPieces : List Nat := [EMPTY, PAWN, KNIGHT, BISHOP, ROOK, QUEEN, KING]

/-- MVV-LVA score table from src/moves_generator.rs: for list indices
`i, j` in 1..=6 the entry for attacker `mvvPieces[i]` and victim
`mvvPieces[j]` is `8 * j - i`; all other entries are 0. -/
def MVV_LVA_SCORES : Nat → Nat → Nat :=
  (List.range 7).foldl (fun tbl i =>
    if i = 0 then tbl
    else (List.range 7).foldl (fun tbl2 j =>
      if j = 0 then tbl2
      else fun a v =>
        if a = mvvPieces.getD i 0 ∧ v = mvvPieces.getD j 0 then 8 * j - i else tbl2 a v) tbl)
    (fun _ _ => 0)

/-- Capture score from src/moves_generator.rs `mvv_lva`: table entry for
the kind of the piece on the origin square and the kind of the victim (the
piece on the destination, forced to PAWN for en passant). -/
def mvv_lva (g : Game) (m : Move) : Nat :=
  let a := Piece.kind (g.board m.from')
  let v := if m.is_en_passant then PAWN else Piece.kind (g.board m.to')
  MVV_LVA_SCORES a v

/-- Ordering bonus for captures with nonnegative SEE, modelled from the
spec (common.rs is absent): the spec fixes no numeric value, only that
adding it lifts a good capture above every plain MVV-LVA score (max 47)
and that `next_capture` prunes scores below it; 64 realizes this. -/
def GOOD_CAPTURE_SCORE : Nat := 64

/-- Conventional material values for the SEE model (eval.rs is absent);
only the sign of a SEE balance is consumed by the move orderer. -/
def pieceValue (kind : Nat) : Int :=
  if kind = PAWN then 100
  else if kind = KNIGHT then 325
  else if kind = BISHOP then 325
  else if kind = ROOK then 500
  else if kind = QUEEN then 975
  else if kind = KING then 10000
  else 0

/-- Index of the lowest set bit of a bitboard (0 for the empty board). -/
def scanBB (b : Nat) : Nat := ((List.range 64).find? (fun i => b.testBit i)).getD 0

/-- Kinds in increasing value order, for least-valuable-attacker
selection. -/
def lvaKinds : List Nat := [PAWN, KNIGHT, BISHOP, ROOK, QUEEN, KING]

/-- Least valuable attacker of a square for one side among the pieces
still present in `occ`, modelled from the spec's SEE description. -/
def leastAttacker (g : Game) (sq occ side : Nat) : Option (Nat × Nat) :=
  let att := attacks_to g sq occ &&& occ
  lvaKinds.findSome? (fun k =>
    let s := att &&& g.bitboards (side ||| k)
    if s ≠ 0 then some (k, scanBB s) else none)

/-- Recursive swap-off value, modelled from the spec: each side may stand
pat (max with 0) or capture with its least valuable attacker. -/
def seeAux (g : Game) (sq : Nat) : Nat → Nat → Nat → Int → Int
  | 0, _, _, _ => 0
  | fuel + 1, occ, side, targetVal =>
    match leastAttacker g sq occ side with
    | none => 0
    | some (k, s) =>
      max 0 (targetVal - seeAux g sq fuel (occ ^^^ (1 <<< s)) (side ^^^ 1) (pieceValue k))

/-- Static exchange evaluation, modelled from the spec (eval.rs is
absent): the expected material balance of the full capture sequence on the
destination square with optimal least-valuable-attacker recaptures. -/
def see (g : Game) (m : Move) : Int :=
  let side := g.top.side
  let victimVal :=
    if m.is_en_passant then pieceValue PAWN else pieceValue (Piece.kind (g.board m.to'))
  let attackerKind := Piece.kind (g.board m.from')
  let occ := (g.bitboards WHITE ||| g.bitboards BLACK) ^^^ (1 <<< m.from')
  victimVal - seeAux g m.to' 16 occ (side ^^^ 1) (pieceValue attackerKind)

/-- List swap used by the ordering pass. -/
def listSwap (lst : List ScoredMove) (i j : Nat) : List ScoredMove :=
  (lst.set i (lst.getD j default)).set j (lst.getD i default)

/-- Inner loop of `sort_moves`: for ascending `j` below `i`, swap entries
`i` and `j` whenever entry `j` scores lower than the current entry `i`;
`togo` counts the remaining iterations. -/
def sortInner (i : Nat) (lst : List ScoredMove) (j togo : Nat) : List ScoredMove :=
  match togo with
  | 0 => lst
  | t + 1 =>
    let lst' :=
      if (lst.getD j default).score < (lst.getD i default).score then listSwap lst i j else lst
    sortInner i lst' (j + 1) t

/-- Outer loop of `sort_moves` over ascending `i`: assigns the MVV-LVA
score (plus GOOD_CAPTURE_SCORE when SEE is nonnegative) to capture
entries, then runs the inner swap pass. -/
def sortOuter (g : Game) (lst : List ScoredMove) (i togo : Nat) : List ScoredMove :=
  match togo with
  | 0 => lst
  | t + 1 =>
    let e := lst.getD i default
    let lst1 :=
      if e.item.is_capture then
        let sc := mvv_lva g e.item
        let sc := if see g e.item ≥ 0 then sc + GOOD_CAPTURE_SCORE else sc
        lst.set i { e with score := sc }
      else lst
    let lst2 := sortInner i lst1 0 i
    sortOuter g lst2 (i + 1) t

/-- Ordering pass from src/moves_generator.rs `sort_moves`: one pass over
the list scoring captures by MVV-LVA with the SEE bonus, swapping each
entry ahead of earlier lower-scored entries. -/
def sort_moves (g : Game) : Game :=
  { g with moves := { g.moves with lst := sortOuter g g.moves.lst 0 g.moves.lst.length } }

/-- Squares of the set bits of a bitboard, in increasing order (bitboard
serialization order). -/
def squaresOf (b : Nat) : List Nat := (List.range 64).filter (fun i => b.testBit i)

/-- Promotion-capture move kinds in generation order. -/
def promotionCaptureKinds : List Nat := [12, 13, 14, 15]

/-- Quiet promotion move kinds in generation order. -/
def promotionQuietKinds : List Nat := [8, 9, 10, 11]

/-- Pawn move generation, modelled from the spec (moves.rs is absent): in
the Capture stage, diagonal captures (promotion captures on the last
rank), en passant when the target matches `position.en_passant`, and quiet
promotions; in the QuietMove stage, single pushes (to-square empty) and
double pushes from the start rank (intermediate and to-square empty). -/
def Moves.add_pawns_moves (ms : Moves) (bbs : Nat → Nat) (side ep : Nat) : Moves :=
  let occ := bbs WHITE ||| bbs BLACK
  let theirs := bbs (side ^^^ 1)
  (squaresOf (bbs (side ||| PAWN))).foldl (fun acc (f : Nat) =>
    let push1 : Int := (f : Int) + YDIRS side
    if acc.stage = stageCapture then
      let acc := (squaresOf (PAWN_ATTACKS side f &&& theirs)).foldl (fun a t =>
        if (RANK_1 ||| RANK_8).testBit t then
          promotionCaptureKinds.foldl (fun a2 k => a2.add_move ⟨f, t, k⟩) a
        else a.add_move ⟨f, t, CAPTURE⟩) acc
      let acc :=
        if ep ≠ OUT ∧ (PAWN_ATTACKS side f).testBit ep then acc.add_move ⟨f, ep, EN_PASSANT⟩
        else acc
      if 0 ≤ push1 ∧ push1 < 64 ∧ ¬occ.testBit push1.toNat ∧
          (RANK_1 ||| RANK_8).testBit push1.toNat then
        promotionQuietKinds.foldl (fun a2 k => a2.add_move ⟨f, push1.toNat, k⟩) acc
      else acc
    else
      let acc :=
        if 0 ≤ push1 ∧ push1 < 64 ∧ ¬occ.testBit push1.toNat ∧
            ¬(RANK_1 ||| RANK_8).testBit push1.toNat then
          acc.add_move ⟨f, push1.toNat, QUIET_MOVE⟩
        else acc
      let startRank := if side = 0 then 8 ≤ f ∧ f < 16 else 48 ≤ f ∧ f < 56
      let push2 : Int := push1 + YDIRS side
      if startRank ∧ 0 ≤ push1 ∧ push1 < 64 ∧ ¬occ.testBit push1.toNat ∧
          0 ≤ push2 ∧ push2 < 64 ∧ ¬occ.testBit push2.toNat then
        acc.add_move ⟨f, push2.toNat, DOUBLE_PAWN_PUSH⟩
      else acc) ms

/-- Attack-mask move generation shared by knights and kings, modelled from
the spec: precomputed mask AND opponent pieces in the Capture stage, AND
empty squares in the QuietMove stage. -/
def Moves.add_mask_moves (ms : Moves) (bbs : Nat → Nat) (side kind : Nat) : Moves :=
  (squaresOf (bbs (side ||| kind))).foldl (fun acc f =>
    let targets := PIECE_MASKS kind f
    if acc.stage = stageCapture then
      (squaresOf (targets &&& bbs (side ^^^ 1))).foldl (fun a t => a.add_move ⟨f, t, CAPTURE⟩) acc
    else
      (squaresOf (targets &&& compl64 (bbs WHITE ||| bbs BLACK))).foldl
        (fun a t => a.add_move ⟨f, t, QUIET_MOVE⟩) acc) ms

/-- Knight move generation, modelled from the spec. -/
def Moves.add_knights_moves (ms : Moves) (bbs : Nat → Nat) (side : Nat) : Moves :=
  ms.add_mask_moves bbs side KNIGHT

/-- King move generation, modelled from the spec. -/
def Moves.add_king_moves (ms : Moves) (bbs : Nat → Nat) (side : Nat) : Moves :=
  ms.add_mask_moves bbs side KING

/-- Slider move generation, modelled from the spec: attack set under the
current occupancy, split into captures and quiet moves by stage. -/
def Moves.add_slider_moves (ms : Moves) (bbs : Nat → Nat) (side kind : Nat) : Moves :=
  let occ := bbs WHITE ||| bbs BLACK
  (squaresOf (bbs (side ||| kind))).foldl (fun acc f =>
    let targets :=
      if kind = BISHOP then bishop_attacks f occ
      else if kind = ROOK then rook_attacks f occ
      else bishop_attacks f occ ||| rook_attacks f occ
    if acc.stage = stageCapture then
      (squaresOf (targets &&& bbs (side ^^^ 1))).foldl (fun a t => a.add_move ⟨f, t, CAPTURE⟩) acc
    else
      (squaresOf (targets &&& compl64 occ)).foldl (fun a t => a.add_move ⟨f, t, QUIET_MOVE⟩) acc) ms

/-- Bishop move generation, modelled from the spec. -/
def Moves.add_bishops_moves (ms : Moves) (bbs : Nat → Nat) (side : Nat) : Moves :=
  ms.add_slider_moves bbs side BISHOP

/-- Rook move generation, modelled from the spec. -/
def Moves.add_rooks_moves (ms : Moves) (bbs : Nat → Nat) (side : Nat) : Moves :=
  ms.add_slider_moves bbs side ROOK

/-- Queen move generation, modelled from the spec. -/
def Moves.add_queens_moves (ms : Moves) (bbs : Nat → Nat) (side : Nat) : Moves :=
  ms.add_slider_moves bbs side QUEEN

/-- Appends the king-side castling move, modelled from the spec. -/
def Moves.add_king_castle (ms : Moves) (side : Nat) : Moves :=
  ms.add_move ⟨Square.flip E1 side, Square.flip G1 side, KING_CASTLE⟩

/-- Appends the queen-side castling move, modelled from the spec. -/
def Moves.add_queen_castle (ms : Moves) (side : Nat) : Moves :=
  ms.add_move ⟨Square.flip E1 side, Square.flip C1 side, QUEEN_CASTLE⟩

/-- Per-stage generator from src/moves_generator.rs `generate_moves`: in
the KillerMove stage the two legality-checked killer slots; in the Capture
and QuietMove stages all piece moves (pawns, knights, king, bishops,
rooks, queens), followed by the ordering pass in the Capture stage and by
the castlings in the QuietMove stage; nothing in BestMove or Done. -/
def generate_moves (g : Game) : Game :=
  if g.moves.stage = stageKillerMove then
    if !g.moves.skip_killers then
      let m0 := g.moves.get_killer_move 0
      let g1 := if is_legal_move g m0 then { g with moves := g.moves.add_move m0 } else g
      let m1 := g1.moves.get_killer_move 1
      if is_legal_move g1 m1 then { g1 with moves := g1.moves.add_move m1 } else g1
    else g
  else if g.moves.stage = stageCapture ∨ g.moves.stage = stageQuietMove then
    let position := g.top
    let side := position.side
    let ep := position.en_passant
    let ms := ((((g.moves.add_pawns_moves g.bitboards side ep).add_knights_moves
      g.bitboards side).add_king_moves g.bitboards side).add_bishops_moves
      g.bitboards side).add_rooks_moves g.bitboards side
    let ms := ms.add_queens_moves g.bitboards side
    let g1 := { g with moves := ms }
    if g1.moves.stage = stageCapture then
      if !g1.moves.skip_ordering then sort_moves g1 else g1
    else
      let g2 := if can_king_castle g1 side then { g1 with moves := g1.moves.add_king_castle side } else g1
      if can_queen_castle g2 side then { g2 with moves := g2.moves.add_queen_castle side } else g2
  else g

/-- Quiescence move puller from src/moves_generator.rs `next_capture`:
from the BestMove stage it advances into the Capture stage and generates;
it returns none as soon as the pending entry scores below
GOOD_CAPTURE_SCORE, otherwise pops the next move. -/
def next_capture (g : Game) : Option Move × Game :=
  let g1 :=
    if g.moves.stage = stageBestMove then generate_moves { g with moves := g.moves.next_stage }
    else g
  let i := g1.moves.idx
  let n := g1.moves.len
  if i < n ∧ (g1.moves.lst.getD i default).score < GOOD_CAPTURE_SCORE then (none, g1)
  else
    let r := g1.moves.next
    (r.1, { g1 with moves := r.2 })

/-- Zobrist hash recomputed from scratch, following the wording of the
specification: the XOR over all occupied (piece, square) positional keys,
XOR the castling key of each currently-held (side, wing) right, XOR the
en-passant key of the current en-passant square if it is not OUT, XOR the
side key if black is to move. -/
def hash_from_scratch (g : Game) : Nat :=
  let pos := g.top
  let boardKeys := (List.range 64).foldr (fun sq acc =>
    (if g.board sq ≠ EMPTY then g.zobrist.positions (g.board sq) sq else 0) ^^^ acc) 0
  let crKeys :=
    (if pos.castling_rights.get 0 0 then g.zobrist.castling_rights 0 0 else 0) ^^^
    (if pos.castling_rights.get 0 1 then g.zobrist.castling_rights 0 1 else 0) ^^^
    (if pos.castling_rights.get 1 0 then g.zobrist.castling_rights 1 0 else 0) ^^^
    (if pos.castling_rights.get 1 1 then g.zobrist.castling_rights 1 1 else 0)
  let epKey := if pos.en_passant ≠ OUT then g.zobrist.en_passant pos.en_passant else 0
  let sideKey := if pos.side = BLACK then g.zobrist.side else 0
  boardKeys ^^^ crKeys ^^^ epKey ^^^ sideKey

/-- Concrete Zobrist tables for the concrete test games: zero positional
and en-passant keys, pairwise-distinct castling keys and a distinct side
key, enough to separate the hash contributions under scrutiny. -/
def zbW : Zobrist :=
  ⟨fun _ _ => 0, fun s w => 2 ^ (2 * s + w + 1), fun _ => 0, 32⟩

/-- Empty killer slots. -/
def noKillersW : Nat → Nat → Move := fun _ _ => ⟨0, 0, 0⟩

/-- Fresh move list in the BestMove stage. -/
def emptyMovesW : Moves := ⟨[], 0, 0, 0, noKillersW, false, false⟩

/-- The position `k1K5/8/8/8/8/1p6/2P5/N7 w - - 0 1` of the spec's
next_capture scenario: white knight a1, white pawn c2, white king c8,
black pawn b3, black king a8, white to move. -/
def gC8W : Game where
  board := fun sq =>
    if sq = 58 then WHITE_KING else if sq = 56 then BLACK_KING
    else if sq = 17 then BLACK_PAWN else if sq = 10 then WHITE_PAWN
    else if sq = 0 then WHITE_KNIGHT else EMPTY
  bitboards := fun i =>
    if i = 0 then (1 <<< 58) ||| (1 <<< 10) ||| (1 <<< 0)
    else if i = 1 then (1 <<< 56) ||| (1 <<< 17)
    else if i = 2 then 1 <<< 10
    else if i = 3 then 1 <<< 17
    else if i = 4 then 1
    else if i = 6 then 1 <<< 58
    else if i = 7 then 1 <<< 56
    else 0
  positions := [⟨0, ⟨false, false, false, false⟩, OUT, 0, 0, EMPTY⟩]
  zobrist := zbW
  moves := emptyMovesW

/-- The position `k7/8/8/8/8/8/8/4K3 w - - 0 1`: both sides have long lost
all castling rights (reachable from the start by king walks), and the top
hash equals the scratch recomputation (all contributions vanish). -/
def gC2W : Game where
  board := fun sq => if sq = 4 then WHITE_KING else if sq = 56 then BLACK_KING else EMPTY
  bitboards := fun i =>
    if i = 0 then 1 <<< 4 else if i = 1 then 1 <<< 56
    else if i = 6 then 1 <<< 4 else if i = 7 then 1 <<< 56 else 0
  positions := [⟨0, ⟨false, false, false, false⟩, OUT, 0, 0, EMPTY⟩]
  zobrist := zbW
  moves := emptyMovesW

/-- Concrete game for the make/unmake witnesses: the gC8W diagram with
nonzero halfmove clock, some castling rights and a nonzero hash. -/
def gRTW : Game where
  board := fun sq =>
    if sq = 58 then WHITE_KING else if sq = 56 then BLACK_KING
    else if sq = 17 then BLACK_PAWN else if sq = 10 then WHITE_PAWN
    else if sq = 0 then WHITE_KNIGHT else EMPTY
  bitboards := fun i =>
    if i = 0 then (1 <<< 58) ||| (1 <<< 10) ||| (1 <<< 0)
    else if i = 1 then (1 <<< 56) ||| (1 <<< 17)
    else if i = 2 then 1 <<< 10
    else if i = 3 then 1 <<< 17
    else if i = 4 then 1
    else if i = 6 then 1 <<< 58
    else if i = 7 then 1 <<< 56
    else 0
  positions := [⟨0, ⟨true, false, true, true⟩, OUT, 3, 77, EMPTY⟩]
  zobrist := zbW
  moves := emptyMovesW

/-- White king e1 and rook h1 with both white rights, black king e8: a
position where king-side castling is admitted. -/
def gCKW : Game where
  board := fun sq =>
    if sq = 4 then WHITE_KING else if sq = 7 then WHITE_ROOK
    else if sq = 60 then BLACK_KING else EMPTY
  bitboards := fun i =>
    if i = 0 then (1 <<< 4) ||| (1 <<< 7) else if i = 1 then 1 <<< 60
    else if i = 6 then 1 <<< 4 else if i = 10 then 1 <<< 7
    else if i = 7 then 1 <<< 60 else 0
  positions := [⟨0, ⟨true, true, false, false⟩, OUT, 0, 0, EMPTY⟩]
  zobrist := zbW
  moves := emptyMovesW

/-- White pawn a2 with en-passant square e6 recorded: the pawn is nowhere
near e6, yet the en-passant move a2e6 passes `is_legal_move`. -/
def gC10W : Game where
  board := fun sq =>
    if sq = 8 then WHITE_PAWN else if sq = 36 then BLACK_PAWN
    else if sq = 4 then WHITE_KING else if sq = 60 then BLACK_KING else EMPTY
  bitboards := fun _ => 0
  positions := [⟨0, ⟨false, false, false, false⟩, 44, 0, 0, EMPTY⟩]
  zobrist := zbW
  moves := emptyMovesW

/-- White pawn b2 and black queen c3, for the PxQ = 39 instance. -/
def gC7W : Game where
  board := fun sq =>
    if sq = 9 then WHITE_PAWN else if sq = 18 then BLACK_QUEEN
    else if sq = 4 then WHITE_KING else if sq = 60 then BLACK_KING else EMPTY
  bitboards := fun _ => 0
  positions := [⟨0, ⟨false, false, false, false⟩, OUT, 0, 0, EMPTY⟩]
  zobrist := zbW
  moves := emptyMovesW

/-- Value-order index of a piece kind: PAWN=1, KNIGHT=2, BISHOP=3,
ROOK=4, QUEEN=5, KING=6 (the loop indices of the MVV-LVA builder). -/
def kindIdx (k : Nat) : Nat :=
  if k = PAWN then 1 else if k = KNIGHT then 2 else if k = BISHOP then 3
  else if k = ROOK then 4 else if k = QUEEN then 5 else if k = KING then 6 else 0


theorem upd_apply {α : Type} (f : Nat → α) (i : Nat) (v : α) (j : Nat) :
    upd f i v j = if j = i then v else f j := rfl

theorem toggleBB_apply (bbs : Nat → Nat) (i sq j : Nat) :
    toggleBB bbs i sq j = bbs j ^^^ (if j = i then 1 <<< sq else 0) := by
  simp only [toggleBB, upd]
  split_ifs with h
  · subst h; rfl
  · exact (Nat.xor_zero _).symm

theorem xor_left_comm' (a b c : Nat) : a ^^^ (b ^^^ c) = b ^^^ (a ^^^ c) := by
  rw [← Nat.xor_assoc, Nat.xor_comm a b, Nat.xor_assoc]

theorem xor_cancel_left' (a b : Nat) : a ^^^ (a ^^^ b) = b := by
  rw [← Nat.xor_assoc, Nat.xor_self, Nat.zero_xor]

theorem castle_kinds_of_is_castle (m : Move) (hc : m.is_castle = true) :
    m.kind = KING_CASTLE ∨ m.kind = QUEEN_CASTLE := by
  have := hc
  simp only [Move.is_castle, Bool.or_eq_true, beq_iff_eq] at this
  exact this

theorem make_undo_board_plain (b : Nat → Nat) (m : Move) (side : Nat)
    (hc : m.is_castle = false) (hp : m.is_promotion = false) (he : ¬m.kind = EN_PASSANT)
    (hft : m.from' ≠ m.to') :
    undo_board (make_board b m (b m.from') side) m
      (make_board b m (b m.from') side m.to') (b m.to') side = b := by
  funext j
  simp only [make_board, undo_board, hc, hp, he, Bool.false_eq_true, if_false, ite_false,
    if_neg he, upd_apply]
  by_cases h1 : j = m.to' <;> by_cases h2 : j = m.from' <;>
    simp [h1, h2, hft, Ne.symm hft]

theorem make_undo_board_castle (b : Nat → Nat) (m : Move) (side : Nat)
    (hs : side < 2) (hc : m.is_castle = true)
    (hf : m.from' = Square.flip E1 side)
    (ht : m.to' = Square.flip (if m.castle_kind = KING then G1 else C1) side)
    (hrf : b (Square.flip (if m.castle_kind = KING then H1 else A1) side) = side ||| ROOK)
    (hrt : b (Square.flip (if m.castle_kind = KING then F1 else D1) side) = EMPTY) :
    undo_board (make_board b m (b m.from') side) m
      (make_board b m (b m.from') side m.to') (b m.to') side = b := by
  have hk := castle_kinds_of_is_castle m hc
  have hp : m.is_promotion = false := by
    rcases hk with h | h <;> simp only [Move.is_promotion, h, KING_CASTLE, QUEEN_CASTLE] <;> decide
  have he : ¬m.kind = EN_PASSANT := by
    rcases hk with h | h <;> simp only [h, KING_CASTLE, QUEEN_CASTLE, EN_PASSANT] <;> decide
  funext j
  interval_cases side <;> rcases hk with h | h <;>
    simp [Move.castle_kind, h, KING_CASTLE, QUEEN_CASTLE, KING, QUEEN, Square.flip,
      E1, F1, G1, H1, A1, C1, D1, EMPTY, ROOK] at hf ht hrf hrt <;>
    simp [make_board, undo_board, hc, hp, Move.castle_kind, h, hf, ht,
      KING_CASTLE, QUEEN_CASTLE, KING, QUEEN, Square.flip, E1, F1, G1, H1, A1, C1, D1,
      EMPTY, ROOK, EN_PASSANT, upd_apply] <;>
    split_ifs <;> simp_all

theorem make_undo_board_promo (b : Nat → Nat) (m : Move) (side : Nat)
    (hpr : m.is_promotion = true) (hft : m.from' ≠ m.to')
    (hpp : b m.from' = side ||| PAWN) :
    undo_board (make_board b m (b m.from') side) m
      (make_board b m (b m.from') side m.to') (b m.to') side = b := by
  have h8 : m.kind &&& 8 ≠ 0 := by
    simpa [Move.is_promotion] using hpr
  have hc : m.is_castle = false := by
    simp only [Move.is_castle, Bool.or_eq_false_iff, beq_eq_false_iff_ne, ne_eq,
      KING_CASTLE, QUEEN_CASTLE]
    constructor <;> intro h <;> rw [h] at h8 <;> exact h8 (by decide)
  have he : ¬m.kind = EN_PASSANT := by
    intro h; rw [h] at h8; exact h8 (by decide)
  funext j
  simp only [make_board, undo_board, hc, hpr, he, Bool.false_eq_true, if_false, ite_false,
    if_neg he, ite_true, if_true, upd_apply]
  by_cases h1 : j = m.to' <;> by_cases h2 : j = m.from' <;>
    simp [h1, h2, hft, Ne.symm hft, hpp]

theorem make_undo_board_ep (b : Nat → Nat) (m : Move) (side : Nat)
    (hep : m.kind = EN_PASSANT) (hft : m.from' ≠ m.to')
    (hv : b (epVictim m.to' side) = (side ^^^ 1) ||| PAWN)
    (hvf : epVictim m.to' side ≠ m.from') (hvt : epVictim m.to' side ≠ m.to') :
    undo_board (make_board b m (b m.from') side) m
      (make_board b m (b m.from') side m.to') (b m.to') side = b := by
  have hc : m.is_castle = false := by
    simp [Move.is_castle, hep, EN_PASSANT, KING_CASTLE, QUEEN_CASTLE]
  have hpr : m.is_promotion = false := by
    simp only [Move.is_promotion, hep, EN_PASSANT]; decide
  funext j
  simp only [make_board, undo_board, hc, hpr, hep, Bool.false_eq_true, if_false, ite_false,
    ite_true, if_true, upd_apply]
  by_cases h1 : j = m.to' <;> by_cases h2 : j = m.from' <;>
    by_cases h3 : j = epVictim m.to' side <;>
    simp_all [hft, Ne.symm hft, (Ne.symm hvf : m.from' ≠ epVictim m.to' side),
      (Ne.symm hvt : m.to' ≠ epVictim m.to' side)]

set_option maxHeartbeats 1000000 in
theorem make_undo_bitboards_ok (bbs : Nat → Nat) (m : Move) (pieceM pieceU capture side : Nat)
    (hpe : if m.is_promotion = true then
        pieceM = side ||| PAWN ∧ pieceU = side ||| m.promotion_kind
      else pieceU = pieceM) :
    undo_bitboards (make_bitboards bbs m pieceM capture side) m pieceU capture side = bbs := by
  funext j
  by_cases hpr : m.is_promotion = true
  · obtain ⟨hM, hU⟩ := by simpa [hpr] using hpe
    subst hM; subst hU
    have h8 : m.kind &&& 8 ≠ 0 := by simpa [Move.is_promotion] using hpr
    have hc : m.is_castle = false := by
      simp only [Move.is_castle, Bool.or_eq_false_iff, beq_eq_false_iff_ne, ne_eq,
        KING_CASTLE, QUEEN_CASTLE]
      constructor <;> intro h <;> rw [h] at h8 <;> exact h8 (by decide)
    have he : ¬m.kind = EN_PASSANT := by
      intro h; rw [h] at h8; exact h8 (by decide)
    by_cases hcap : capture = EMPTY <;>
      simp only [make_bitboards, undo_bitboards, hpr, hc, he, hcap, Bool.false_eq_true,
        if_false, ite_false, ite_true, if_true, if_neg he, ne_eq, not_true_eq_false,
        not_false_eq_true, toggleBB_apply] <;>
      simp [Nat.xor_assoc, Nat.xor_comm, xor_left_comm', xor_cancel_left']
  · have hU : pieceU = pieceM := by simpa [hpr] using hpe
    subst hU
    simp only [Bool.not_eq_true] at hpr
    by_cases hcs : m.is_castle = true
    · have hk := castle_kinds_of_is_castle m hcs
      have he : ¬m.kind = EN_PASSANT := by
        rcases hk with h | h <;> simp only [h, KING_CASTLE, QUEEN_CASTLE, EN_PASSANT] <;> decide
      by_cases hcap : capture = EMPTY <;>
        simp only [make_bitboards, undo_bitboards, hpr, hcs, hcap, Bool.false_eq_true,
          if_false, ite_false, ite_true, if_true, if_neg he, ne_eq, not_true_eq_false,
          not_false_eq_true, toggleBB_apply] <;>
        simp [Nat.xor_assoc, Nat.xor_comm, xor_left_comm', xor_cancel_left']
    · simp only [Bool.not_eq_true] at hcs
      by_cases hep : m.kind = EN_PASSANT <;> by_cases hcap : capture = EMPTY <;>
        simp only [make_bitboards, undo_bitboards, hpr, hcs, hcap, hep, Bool.false_eq_true,
          if_false, ite_false, ite_true, if_true, ne_eq, not_true_eq_false,
          not_false_eq_true, toggleBB_apply] <;>
        simp [Nat.xor_assoc, Nat.xor_comm, xor_left_comm', xor_cancel_left']

theorem make_board_at_to (b : Nat → Nat) (m : Move) (piece side : Nat)
    (hepd : m.kind = EN_PASSANT → epVictim m.to' side ≠ m.to') :
    make_board b m piece side m.to' =
      if m.is_promotion = true then side ||| m.promotion_kind else piece := by
  by_cases hep : m.kind = EN_PASSANT
  · have hv := Ne.symm (hepd hep)
    by_cases hpr : m.is_promotion = true <;>
      simp [make_board, hep, hpr, upd_apply, hv]
  · by_cases hpr : m.is_promotion = true <;>
      simp [make_board, hep, hpr, upd_apply]

theorem make_position_capture (g : Game) (m : Move) :
    (make_position g m).capture = g.board m.to' := rfl

theorem moves_inc_dec (ms : Moves) : ms.inc.dec = ms := by
  simp [Moves.inc, Moves.dec]

/-- C1: for every legal move m from a reachable game state (expressed by
the facts legality guarantees: a proper from/to pair, a valid side to
move, a pawn on the origin of a promotion, king and rook arrangement for a
castle, and the victim pawn behind the en-passant target), `make_move m`
followed by `undo_move m` restores every field of the game: the mailbox
board, all 14 bitboards, and, through the popped position, the Zobrist
hash, the castling rights, the en-passant square, the halfmove clock, and
the position-stack size. -/
theorem make_undo_roundtrip (g : Game) (m : Move)
    (hnn : m.from' ≠ m.to')
    (hs : g.top.side < 2)
    (hpromo : m.is_promotion = true → g.board m.from' = g.top.side ||| PAWN)
    (hcastle : m.is_castle = true →
      m.from' = Square.flip E1 g.top.side ∧
      m.to' = Square.flip (if m.castle_kind = KING then G1 else C1) g.top.side ∧
      g.board (Square.flip (if m.castle_kind = KING then H1 else A1) g.top.side) =
        g.top.side ||| ROOK ∧
      g.board (Square.flip (if m.castle_kind = KING then F1 else D1) g.top.side) = EMPTY)
    (hep : m.kind = EN_PASSANT →
      g.board (epVictim m.to' g.top.side) = (g.top.side ^^^ 1) ||| PAWN ∧
      epVictim m.to' g.top.side ≠ m.from' ∧ epVictim m.to' g.top.side ≠ m.to') :
    undo_move (make_move g m) m = g := by
  have hnull : m.is_null = false := by simp [Move.is_null, hnn]
  have hpieceU : make_board g.board m (g.board m.from') g.top.side m.to' =
      if m.is_promotion = true then g.top.side ||| m.promotion_kind else g.board m.from' :=
    make_board_at_to _ _ _ _ (fun h => (hep h).2.2)
  have hboard : undo_board (make_board g.board m (g.board m.from') g.top.side) m
      (make_board g.board m (g.board m.from') g.top.side m.to') (g.board m.to') g.top.side =
      g.board := by
    by_cases hpr : m.is_promotion = true
    · exact make_undo_board_promo g.board m g.top.side hpr hnn (hpromo hpr)
    · by_cases hcs : m.is_castle = true
      · obtain ⟨h1, h2, h3, h4⟩ := hcastle hcs
        exact make_undo_board_castle g.board m g.top.side hs hcs h1 h2 h3 h4
      · by_cases hepc : m.kind = EN_PASSANT
        · obtain ⟨h1, h2, h3⟩ := hep hepc
          exact make_undo_board_ep g.board m g.top.side hepc hnn h1 h2 h3
        · exact make_undo_board_plain g.board m g.top.side
            (by simpa using hcs) (by simpa using hpr) hepc hnn
  have hbb : undo_bitboards (make_bitboards g.bitboards m (g.board m.from') (g.board m.to')
      g.top.side) m (make_board g.board m (g.board m.from') g.top.side m.to')
      (g.board m.to') g.top.side = g.bitboards := by
    apply make_undo_bitboards_ok
    by_cases hpr : m.is_promotion = true
    · rw [if_pos hpr]
      refine ⟨hpromo hpr, ?_⟩
      rw [hpieceU, if_pos hpr]
    · rw [if_neg hpr, hpieceU, if_neg hpr]
  show undo_move (make_move g m) m = g
  simp only [make_move, hnull, Bool.false_eq_true, if_false, ite_false]
  simp only [undo_move, hnull, Bool.false_eq_true, if_false, ite_false, Game.top,
    List.tail_cons, List.headI_cons, make_position_capture, moves_inc_dec]
  simp only [Game.top] at hboard hbb
  simp only [hboard, hbb]

/-- Witness for C1: the capture c2xb3 on the concrete game gRTW. -/
theorem make_undo_roundtrip_witness :
    undo_move (make_move gRTW ⟨10, 17, 4⟩) ⟨10, 17, 4⟩ = gRTW :=
  make_undo_roundtrip gRTW ⟨10, 17, 4⟩ (by decide) (by decide) (by decide) (by decide)
    (by decide)


/-- C9: make_move on the null move pushes exactly one new position whose
side is toggled, whose hash differs from the old hash by exactly the side
Zobrist key, whose en-passant square is OUT, and whose halfmove clock is
the old clock plus one, while leaving the mailbox board and all bitboards
unchanged. -/
theorem make_null_spec (g : Game) (m : Move) (h : m.is_null = true) :
    (make_move g m).positions.length = g.positions.length + 1 ∧
    (make_move g m).positions.tail = g.positions ∧
    (make_move g m).top.side = g.top.side ^^^ 1 ∧
    (make_move g m).top.hash = g.top.hash ^^^ g.zobrist.side ∧
    (make_move g m).top.en_passant = OUT ∧
    (make_move g m).top.halfmoves_count = g.top.halfmoves_count + 1 ∧
    (make_move g m).board = g.board ∧
    (make_move g m).bitboards = g.bitboards := by
  simp [make_move, h, Game.top]

theorem cr_get_set_same {cr : CastlingRights} {side w : Nat} (b : Bool) (hw : w < 2) :
    (cr.set side w b).get side w = b := by
  interval_cases w <;> by_cases hs : side = 0 <;>
    simp [CastlingRights.set, CastlingRights.get, hs]

theorem cr_get_set_other {cr : CastlingRights} {side : Nat} (b : Bool) (w w' : Nat)
    (hw : w < 2) (hw' : w' < 2) (hne : w ≠ w') :
    (cr.set side w b).get side w' = cr.get side w' := by
  interval_cases w <;> interval_cases w' <;> first
    | exact absurd rfl hne
    | (by_cases hs : side = 0 <;> simp [CastlingRights.set, CastlingRights.get, hs])

theorem cr_set_k_ne (cr : CastlingRights) (side : Nat) :
    (¬(cr.set side 0 false = cr)) ↔ cr.get side 0 = true := by
  by_cases hs : side = 0 <;> rcases cr with ⟨wk, wq, bk, bq⟩ <;>
    simp [CastlingRights.set, CastlingRights.get, hs]

theorem cr_set_q_ne (cr : CastlingRights) (side : Nat) :
    (¬(cr.set side 1 false = cr)) ↔ cr.get side 1 = true := by
  by_cases hs : side = 0 <;> rcases cr with ⟨wk, wq, bk, bq⟩ <;>
    simp [CastlingRights.set, CastlingRights.get, hs]

theorem cr_set_both_ne (cr : CastlingRights) (side : Nat) :
    (¬((cr.set side 0 false).set side 1 false = cr)) ↔
      (cr.get side 0 = true ∨ cr.get side 1 = true) := by
  by_cases hs : side = 0 <;> rcases cr with ⟨wk, wq, bk, bq⟩ <;>
    simp [CastlingRights.set, CastlingRights.get, hs] <;>
    first
      | (cases wk <;> cases wq <;> simp [CastlingRights.mk.injEq])
      | (cases bk <;> cases bq <;> simp [CastlingRights.mk.injEq])

theorem flip_ne_flip {a b : Nat} (side : Nat) (h : a ≠ b) :
    Square.flip a side ≠ Square.flip b side := by
  intro hc
  apply h
  have := congrArg (fun x => x ^^^ (56 * side)) hc
  simpa [Square.flip, Nat.xor_assoc] using this

theorem make_top_nonnull (g : Game) (m : Move) (hnull : m.is_null = false) :
    (make_move g m).top = make_position g m := by
  simp [make_move, hnull, Game.top]

theorem prod_fst_ite {a : Type} {b : Type} (c : Prop) [Decidable c] (x y : a × b) :
    (if c then x else y).1 = if c then x.1 else y.1 := by
  split_ifs <;> rfl

theorem prod_snd_ite {a : Type} {b : Type} (c : Prop) [Decidable c] (x y : a × b) :
    (if c then x else y).2 = if c then x.2 else y.2 := by
  split_ifs <;> rfl

/-- C5: for every non-null move (with the kind/piece agreement legality
guarantees for promotions and en passant), the halfmove clock of the new
top position is zero iff the move is a pawn move, a capture, a castling,
or changes any castling right; otherwise it is the previous clock plus
one. -/
theorem make_halfmoves (g : Game) (m : Move)
    (hnn : m.from' ≠ m.to')
    (hpromo : m.is_promotion = true → Piece.kind (g.board m.from') = PAWN)
    (hepk : m.kind = EN_PASSANT → Piece.kind (g.board m.from') = PAWN) :
    (make_move g m).top.halfmoves_count =
      if Piece.kind (g.board m.from') = PAWN ∨ g.board m.to' ≠ EMPTY ∨
          m.is_castle = true ∨
          (make_move g m).top.castling_rights ≠ g.top.castling_rights
      then 0 else g.top.halfmoves_count + 1 := by
  have hnull : m.is_null = false := by simp [Move.is_null, hnn]
  rw [make_top_nonnull g m hnull]
  by_cases hcap : g.board m.to' = EMPTY
  case neg =>
    simp only [make_position, prod_fst_ite, prod_snd_ite]
    simp [hcap]
  case pos =>
    have hcapk : ¬Piece.kind (g.board m.to') = ROOK := by
      rw [hcap]; decide
    by_cases hcs : m.is_castle = true
    · simp only [make_position, prod_fst_ite, prod_snd_ite]
      simp [hcs]
    · by_cases hpr : m.is_promotion = true
      · have hk := hpromo hpr
        simp only [make_position, prod_fst_ite, prod_snd_ite]
        simp [hk, hpr, hcs]
      · by_cases hepc : m.kind = EN_PASSANT
        · have hk := hepk hepc
          simp only [make_position, prod_fst_ite, prod_snd_ite]
          simp [hk, hepc, hcs]
        · by_cases hkp : Piece.kind (g.board m.from') = PAWN
          · have h1 : ¬Piece.kind (g.board m.from') = KING := by rw [hkp]; decide
            have h2 : ¬Piece.kind (g.board m.from') = ROOK := by rw [hkp]; decide
            simp only [make_position, prod_fst_ite, prod_snd_ite]
            simp [hkp, h1, h2, hcs, hpr, hepc, hcap, hcapk, PAWN, KING, ROOK]
          · by_cases hkk : Piece.kind (g.board m.from') = KING
            · simp only [make_position, prod_fst_ite, prod_snd_ite]
              have hsh : (KING : Nat) >>> 3 = 0 := by decide
              have hsq : (QUEEN : Nat) >>> 3 = 1 := by decide
              have hcap2 : ¬Piece.kind EMPTY = ROOK := by decide
              simp only [hkk, hkp, hcs, hpr, hepc, hcap, hcapk, hcap2, hsh, hsq, ite_true,
                if_true, ite_false, if_false, Bool.false_eq_true, not_false_eq_true,
                ne_eq, not_true_eq_false, Game.top]
              simp only [cr_set_both_ne]
              by_cases hr : g.positions.headI.castling_rights.get g.positions.headI.side 0 = true ∨
                  g.positions.headI.castling_rights.get g.positions.headI.side 1 = true <;>
                simp [hr, hkp, hkk, hcs, hpr, hepc, hcap, PAWN, KING, ROOK]
            · by_cases hkr : Piece.kind (g.board m.from') = ROOK
              · have hsh : (KING : Nat) >>> 3 = 0 := by decide
                have hsq : (QUEEN : Nat) >>> 3 = 1 := by decide
                have hcap2 : ¬Piece.kind EMPTY = ROOK := by decide
                have hkr2 : ¬Piece.kind (g.board m.from') = KING := by rw [hkr]; decide
                have hx1 : ¬((ROOK : Nat) = KING) := by decide
                have hx2 : ¬((ROOK : Nat) = PAWN) := by decide
                have hha2 : Square.flip H1 g.positions.headI.side ≠
                    Square.flip A1 g.positions.headI.side := flip_ne_flip _ (by decide)
                simp only [make_position, prod_fst_ite, prod_snd_ite]
                simp only [hkr, hkr2, hkk, hkp, hcs, hpr, hepc, hcap, hcapk, hcap2, hsh,
                  hsq, ite_true, if_true, ite_false, if_false, Bool.false_eq_true,
                  not_false_eq_true, ne_eq, not_true_eq_false, Game.top]
                by_cases hH : m.from' = Square.flip H1 g.positions.headI.side <;>
                  by_cases hA : m.from' = Square.flip A1 g.positions.headI.side
                · exact absurd (hH ▸ hA) hha2
                · simp only [hH, hA, ite_true, if_true, ite_false, if_false, if_neg hha2]
                  by_cases hr : g.positions.headI.castling_rights.get
                      g.positions.headI.side 0 = true
                  · have hne : ¬(g.positions.headI.castling_rights.set g.positions.headI.side
                        0 false = g.positions.headI.castling_rights) :=
                      (cr_set_k_ne _ _).mpr hr
                    simp [hr, hne, hx1, hx2]
                  · have heq : g.positions.headI.castling_rights.set g.positions.headI.side
                        0 false = g.positions.headI.castling_rights := by
                      by_contra hc
                      exact hr ((cr_set_k_ne _ _).mp hc)
                    simp [hr, heq, hx1, hx2]
                · simp only [hH, hA, ite_true, if_true, ite_false, if_false,
                    if_neg (Ne.symm hha2)]
                  by_cases hr : g.positions.headI.castling_rights.get
                      g.positions.headI.side 1 = true
                  · have hne : ¬(g.positions.headI.castling_rights.set g.positions.headI.side
                        1 false = g.positions.headI.castling_rights) :=
                      (cr_set_q_ne _ _).mpr hr
                    simp [hr, hne, hx1, hx2]
                  · have heq : g.positions.headI.castling_rights.set g.positions.headI.side
                        1 false = g.positions.headI.castling_rights := by
                      by_contra hc
                      exact hr ((cr_set_q_ne _ _).mp hc)
                    simp [hr, heq, hx1, hx2]
                · simp [hH, hA, hx1, hx2]
              · have hcap2 : ¬Piece.kind EMPTY = ROOK := by decide
                simp only [make_position, prod_fst_ite, prod_snd_ite]
                simp [hkr, hkk, hkp, hcs, hpr, hepc, hcap, hcapk, hcap2]

/-- C2 (code bug): from the reachable position `k7/8/8/8/8/8/8/4K3 w - -`
whose incremental hash agrees with the scratch recomputation, the quiet
king move e1e2 makes the incremental hash differ from the scratch hash:
make_move XORs both white castling keys although white holds no rights. -/
theorem zobrist_desync :
    (gC2W.positions.headI).hash = hash_from_scratch gC2W ∧
    ((make_move gC2W ⟨4, 12, 0⟩).positions.headI).hash ≠
      hash_from_scratch (make_move gC2W ⟨4, 12, 0⟩) := by
  decide

/-- C7: for every capture whose attacker kind is a and whose victim kind
is v (the piece on the destination square, forced to PAWN for en passant),
mvv_lva scores 8*v - a under the value ordering PAWN=1 .. KING=6. -/
theorem mvv_lva_spec (g : Game) (m : Move) (a v : Nat)
    (hA : Piece.kind (g.board m.from') = a)
    (hV : (if m.is_en_passant = true then PAWN else Piece.kind (g.board m.to')) = v)
    (ha : a ∈ ([PAWN, KNIGHT, BISHOP, ROOK, QUEEN, KING] : List Nat))
    (hv : v ∈ ([PAWN, KNIGHT, BISHOP, ROOK, QUEEN, KING] : List Nat)) :
    mvv_lva g m = 8 * kindIdx v - kindIdx a := by
  unfold mvv_lva
  rw [hA, hV]
  fin_cases ha <;> fin_cases hv <;> rfl

/-- Witness for C7: PxQ scores 39. -/
theorem mvv_lva_spec_witness :
    mvv_lva gC7W ⟨9, 18, 4⟩ = 8 * kindIdx QUEEN - kindIdx PAWN :=
  mvv_lva_spec gC7W ⟨9, 18, 4⟩ PAWN QUEEN (by decide) (by decide) (by decide) (by decide)

/-- C10: whenever the top position records a non-OUT en-passant square e,
is_legal_move accepts every non-null EN_PASSANT move whose origin holds a
pawn of the side to move and whose destination is e, with no adjacency or
attack-set check. -/
theorem is_legal_move_ep (g : Game) (m : Move)
    (hnn : m.from' ≠ m.to')
    (hk : m.kind = EN_PASSANT)
    (hs : g.top.side < 2)
    (hp : g.board m.from' = g.top.side ||| PAWN)
    (hept : m.to' = g.top.en_passant)
    (hout : g.top.en_passant ≠ OUT) :
    is_legal_move g m = true := by
  have hnull : m.is_null = false := by simp [Move.is_null, hnn]
  have hside : g.top.side = 0 ∨ g.top.side = 1 := by omega
  rcases hside with h0 | h0 <;>
    rw [h0] at hp <;>
    simp [is_legal_move, hnull, Game.top, hp, hept, hk, Move.is_en_passant,
      Move.is_promotion, EN_PASSANT, DOUBLE_PAWN_PUSH, Piece.color, Piece.kind, PAWN,
      EMPTY, h0] <;>
    exact ⟨by simpa [Game.top] using h0.symm, by decide⟩

theorem compl64_testBit (occ u : Nat) (hu : u < 64) :
    (compl64 occ).testBit u = !occ.testBit u := by
  rw [compl64, Nat.testBit_xor]
  have h1 : (0xFFFFFFFFFFFFFFFF : Nat).testBit u = true := by
    interval_cases u <;> decide
  rw [h1]
  cases occ.testBit u <;> decide

theorem testBit_ge_64 {x : Nat} (hx : x < 18446744073709551616) {i : Nat} (hi : 64 ≤ i) :
    x.testBit i = false := by
  apply Nat.testBit_lt_two_pow
  calc x < 2 ^ 64 := hx
    _ ≤ 2 ^ i := Nat.pow_le_pow_right (by norm_num) hi

theorem and_mask_eq (occ mask : Nat) (hm : mask < 18446744073709551616) :
    (compl64 occ &&& mask = mask) ↔
      (∀ i, i < 64 → mask.testBit i = true → occ.testBit i = false) := by
  constructor
  · intro h i hi hb
    have := congrArg (fun x => Nat.testBit x i) h
    simp only [Nat.testBit_and, hb, Bool.and_true] at this
    rw [compl64_testBit occ i hi] at this
    cases hx : occ.testBit i
    · rfl
    · rw [hx] at this; exact absurd this (by decide)
  · intro h
    apply Nat.eq_of_testBit_eq
    intro j
    rw [Nat.testBit_and]
    by_cases hj : j < 64
    · cases hb : mask.testBit j
      · simp
      · rw [compl64_testBit occ j hj, h j hj hb]
        rfl
    · rw [testBit_ge_64 hm (by omega)]
      simp

/-- C6: king-side castling is admitted iff king on E1 and rook on H1
(side-mirrored), the right is held, F1 and G1 are empty, and E1, F1, G1
are not attacked; queen-side iff king on E1 and rook on A1, the right is
held, B1, C1, D1 are empty, and E1, D1, C1 are not attacked; B1 is only
required to be empty, never checked for attack. -/
theorem can_castle_iff (g : Game) (side : Nat) (hs : side < 2) :
    (can_king_castle g side = true ↔
      (g.board (Square.flip E1 side) = side ||| KING ∧
       g.board (Square.flip H1 side) = side ||| ROOK ∧
       g.top.castling_rights.get side 0 = true ∧
       (g.bitboards WHITE ||| g.bitboards BLACK).testBit (Square.flip F1 side) = false ∧
       (g.bitboards WHITE ||| g.bitboards BLACK).testBit (Square.flip G1 side) = false ∧
       is_attacked g (Square.flip E1 side) side = false ∧
       is_attacked g (Square.flip F1 side) side = false ∧
       is_attacked g (Square.flip G1 side) side = false)) ∧
    (can_queen_castle g side = true ↔
      (g.board (Square.flip E1 side) = side ||| KING ∧
       g.board (Square.flip A1 side) = side ||| ROOK ∧
       g.top.castling_rights.get side 1 = true ∧
       (g.bitboards WHITE ||| g.bitboards BLACK).testBit (Square.flip B1 side) = false ∧
       (g.bitboards WHITE ||| g.bitboards BLACK).testBit (Square.flip C1 side) = false ∧
       (g.bitboards WHITE ||| g.bitboards BLACK).testBit (Square.flip D1 side) = false ∧
       is_attacked g (Square.flip E1 side) side = false ∧
       is_attacked g (Square.flip D1 side) side = false ∧
       is_attacked g (Square.flip C1 side) side = false)) := by
  have hmK : ∀ occ : Nat, (compl64 occ &&& CASTLING_MASKS side 0 = CASTLING_MASKS side 0) ↔
      (occ.testBit (Square.flip F1 side) = false ∧ occ.testBit (Square.flip G1 side) = false) := by
    intro occ
    interval_cases side <;>
      rw [and_mask_eq _ _ (by decide)] <;>
      constructor <;> intro h
    · exact ⟨h 5 (by decide) (by decide), h 6 (by decide) (by decide)⟩
    · intro i hi hb
      have : i = 5 ∨ i = 6 := by
        revert hb
        interval_cases i <;> decide
      rcases this with rfl | rfl
      · exact h.1
      · exact h.2
    · exact ⟨h 61 (by decide) (by decide), h 62 (by decide) (by decide)⟩
    · intro i hi hb
      have : i = 61 ∨ i = 62 := by
        revert hb
        interval_cases i <;> decide
      rcases this with rfl | rfl
      · exact h.1
      · exact h.2
  have hmQ : ∀ occ : Nat, (compl64 occ &&& CASTLING_MASKS side 1 = CASTLING_MASKS side 1) ↔
      (occ.testBit (Square.flip B1 side) = false ∧ occ.testBit (Square.flip C1 side) = false ∧
       occ.testBit (Square.flip D1 side) = false) := by
    intro occ
    interval_cases side <;>
      rw [and_mask_eq _ _ (by decide)] <;>
      constructor <;> intro h
    · exact ⟨h 1 (by decide) (by decide), h 2 (by decide) (by decide), h 3 (by decide) (by decide)⟩
    · intro i hi hb
      have : i = 1 ∨ i = 2 ∨ i = 3 := by
        revert hb
        interval_cases i <;> decide
      rcases this with rfl | rfl | rfl
      · exact h.1
      · exact h.2.1
      · exact h.2.2
    · exact ⟨h 57 (by decide) (by decide), h 58 (by decide) (by decide), h 59 (by decide) (by decide)⟩
    · intro i hi hb
      have : i = 57 ∨ i = 58 ∨ i = 59 := by
        revert hb
        interval_cases i <;> decide
      rcases this with rfl | rfl | rfl
      · exact h.1
      · exact h.2.1
      · exact h.2.2
  constructor
  · rw [can_king_castle]
    simp only [Bool.and_eq_true, beq_iff_eq, Bool.not_eq_true', Position.has_castling_right_on]
    have hw : (KING : Nat) >>> 3 = 0 := by decide
    rw [hw, hmK]
    tauto
  · rw [can_queen_castle]
    simp only [Bool.and_eq_true, beq_iff_eq, Bool.not_eq_true', Position.has_castling_right_on]
    have hw : (QUEEN : Nat) >>> 3 = 1 := by decide
    rw [hw, hmQ]
    tauto


/-- Witness for C9: the null move on the concrete game gRTW. -/
theorem make_null_spec_witness :
    (make_move gRTW ⟨0, 0, 0⟩).positions.length = gRTW.positions.length + 1 ∧
    (make_move gRTW ⟨0, 0, 0⟩).positions.tail = gRTW.positions ∧
    (make_move gRTW ⟨0, 0, 0⟩).top.side = gRTW.top.side ^^^ 1 ∧
    (make_move gRTW ⟨0, 0, 0⟩).top.hash = gRTW.top.hash ^^^ gRTW.zobrist.side ∧
    (make_move gRTW ⟨0, 0, 0⟩).top.en_passant = OUT ∧
    (make_move gRTW ⟨0, 0, 0⟩).top.halfmoves_count = gRTW.top.halfmoves_count + 1 ∧
    (make_move gRTW ⟨0, 0, 0⟩).board = gRTW.board ∧
    (make_move gRTW ⟨0, 0, 0⟩).bitboards = gRTW.bitboards :=
  make_null_spec gRTW ⟨0, 0, 0⟩ (by decide)

/-- Witness for C5: the white king move c8d8 on gRTW resets the clock to
zero because it forfeits the held king-side right. -/
theorem make_halfmoves_witness :
    (make_move gRTW ⟨58, 59, 0⟩).top.halfmoves_count =
      if Piece.kind (gRTW.board 58) = PAWN ∨ gRTW.board 59 ≠ EMPTY ∨
          (⟨58, 59, 0⟩ : Move).is_castle = true ∨
          (make_move gRTW ⟨58, 59, 0⟩).top.castling_rights ≠ gRTW.top.castling_rights
      then 0 else gRTW.top.halfmoves_count + 1 :=
  make_halfmoves gRTW ⟨58, 59, 0⟩ (by decide) (by decide) (by decide)

/-- Witness for C10: the pawn on a2 is not adjacent to the en-passant
square e6, yet the en-passant move a2e6 is accepted. -/
theorem is_legal_move_ep_witness :
    is_legal_move gC10W ⟨8, 44, 5⟩ = true :=
  is_legal_move_ep gC10W ⟨8, 44, 5⟩ (by decide) (by decide) (by decide) (by decide)
    (by decide) (by decide)

/-- Witness for C6: the castling admission equivalence instantiated for
white on the concrete game gCKW. -/
theorem can_castle_iff_witness :
    (can_king_castle gCKW 0 = true ↔
      (gCKW.board (Square.flip E1 0) = 0 ||| KING ∧
       gCKW.board (Square.flip H1 0) = 0 ||| ROOK ∧
       gCKW.top.castling_rights.get 0 0 = true ∧
       (gCKW.bitboards WHITE ||| gCKW.bitboards BLACK).testBit (Square.flip F1 0) = false ∧
       (gCKW.bitboards WHITE ||| gCKW.bitboards BLACK).testBit (Square.flip G1 0) = false ∧
       is_attacked gCKW (Square.flip E1 0) 0 = false ∧
       is_attacked gCKW (Square.flip F1 0) 0 = false ∧
       is_attacked gCKW (Square.flip G1 0) 0 = false)) ∧
    (can_queen_castle gCKW 0 = true ↔
      (gCKW.board (Square.flip E1 0) = 0 ||| KING ∧
       gCKW.board (Square.flip A1 0) = 0 ||| ROOK ∧
       gCKW.top.castling_rights.get 0 1 = true ∧
       (gCKW.bitboards WHITE ||| gCKW.bitboards BLACK).testBit (Square.flip B1 0) = false ∧
       (gCKW.bitboards WHITE ||| gCKW.bitboards BLACK).testBit (Square.flip C1 0) = false ∧
       (gCKW.bitboards WHITE ||| gCKW.bitboards BLACK).testBit (Square.flip D1 0) = false ∧
       is_attacked gCKW (Square.flip E1 0) 0 = false ∧
       is_attacked gCKW (Square.flip D1 0) 0 = false ∧
       is_attacked gCKW (Square.flip C1 0) 0 = false)) :=
  can_castle_iff gCKW 0 (by decide)


theorem foldl_stage {X : Type} (f : Moves → X → Moves) (h : ∀ ms x, (f ms x).stage = ms.stage) :
    ∀ (l : List X) (ms : Moves), (l.foldl f ms).stage = ms.stage := by
  intro l
  induction l with
  | nil => intro ms; rfl
  | cons x xs ih => intro ms; rw [List.foldl_cons, ih, h]

theorem add_move_stage (ms : Moves) (m : Move) : (ms.add_move m).stage = ms.stage := rfl

theorem foldl_add_move_stage (l : List Nat) (a : Moves) (mk : Nat → Move) :
    (l.foldl (fun a2 k => a2.add_move (mk k)) a).stage = a.stage :=
  foldl_stage (fun a2 k => a2.add_move (mk k)) (fun _ _ => rfl) l a

theorem add_pawns_stage (ms : Moves) (bbs : Nat → Nat) (side ep : Nat) :
    (ms.add_pawns_moves bbs side ep).stage = ms.stage := by
  unfold Moves.add_pawns_moves
  apply foldl_stage
  intro ms' f
  have hcapfold : ∀ (l : List Nat) (a : Moves),
      (l.foldl (fun a t => if (RANK_1 ||| RANK_8).testBit t = true then
          promotionCaptureKinds.foldl (fun a2 k => a2.add_move ⟨f, t, k⟩) a
        else a.add_move ⟨f, t, CAPTURE⟩) a).stage = a.stage := by
    intro l a
    apply foldl_stage
    intro a' t
    split_ifs
    · exact foldl_add_move_stage _ _ _
    · rfl
  by_cases h : ms'.stage = stageCapture <;>
    simp only [h, if_true, ite_true, if_false, ite_false] <;>
    split_ifs <;>
    simp only [foldl_add_move_stage, add_move_stage, hcapfold] <;>
    first
      | rfl
      | exact h

theorem add_mask_stage (ms : Moves) (bbs : Nat → Nat) (side kind : Nat) :
    (ms.add_mask_moves bbs side kind).stage = ms.stage := by
  unfold Moves.add_mask_moves
  apply foldl_stage
  intro ms' f
  by_cases h : ms'.stage = stageCapture <;>
    simp only [h, if_true, ite_true, if_false, ite_false] <;>
    first
      | (rw [foldl_stage (fun a t => a.add_move ⟨f, t, CAPTURE⟩) (fun _ _ => rfl)]; exact h)
      | rw [foldl_stage (fun a t => a.add_move ⟨f, t, QUIET_MOVE⟩) (fun _ _ => rfl)]

theorem add_slider_stage (ms : Moves) (bbs : Nat → Nat) (side kind : Nat) :
    (ms.add_slider_moves bbs side kind).stage = ms.stage := by
  unfold Moves.add_slider_moves
  apply foldl_stage
  intro ms' f
  by_cases h : ms'.stage = stageCapture <;>
    simp only [h, if_true, ite_true, if_false, ite_false] <;>
    first
      | (rw [foldl_stage (fun a t => a.add_move ⟨f, t, CAPTURE⟩) (fun _ _ => rfl)]; exact h)
      | rw [foldl_stage (fun a t => a.add_move ⟨f, t, QUIET_MOVE⟩) (fun _ _ => rfl)]

theorem sort_moves_stage (g : Game) : (sort_moves g).moves.stage = g.moves.stage := rfl

theorem generate_moves_stage (g : Game) : (generate_moves g).moves.stage = g.moves.stage := by
  unfold generate_moves
  by_cases h1 : g.moves.stage = stageKillerMove
  · simp only [h1, if_true, ite_true]
    split_ifs <;> exact h1
  · simp only [h1, if_false, ite_false]
    by_cases h2 : g.moves.stage = stageCapture ∨ g.moves.stage = stageQuietMove
    · simp only [h2, if_true, ite_true]
      split_ifs <;>
        simp [sort_moves_stage, add_move_stage, Moves.add_king_castle, Moves.add_queen_castle,
          Moves.add_knights_moves, Moves.add_king_moves, Moves.add_bishops_moves,
          Moves.add_rooks_moves, Moves.add_queens_moves, add_slider_stage, add_mask_stage,
          add_pawns_stage, sort_moves]
    · simp only [h2, if_false, ite_false]

theorem moves_next_stage (ms : Moves) : ms.next.2.stage = ms.stage := by
  unfold Moves.next
  split_ifs <;> rfl

theorem moves_next_lst (ms : Moves) : ms.next.2.lst = ms.lst := by
  unfold Moves.next
  split_ifs <;> rfl

/-- C8: next_capture called in the BestMove stage advances directly into
the Capture stage and generates the capture list; in the Capture stage it
returns none as soon as the pending entry scores below GOOD_CAPTURE_SCORE
and otherwise returns that move; and on the position
k1K5/8/8/8/8/1p6/2P5/N7 w it yields exactly c2xb3 then a1xb3 then none. -/
theorem next_capture_spec :
    (∀ g : Game, g.moves.stage = stageBestMove →
      ((next_capture g).2).moves.stage = stageCapture ∧
      ((next_capture g).2).moves.lst =
        (generate_moves { g with moves := g.moves.next_stage }).moves.lst) ∧
    (∀ g : Game, g.moves.stage ≠ stageBestMove → g.moves.idx < g.moves.lst.length →
      ((g.moves.lst.getD g.moves.idx default).score < GOOD_CAPTURE_SCORE →
        (next_capture g).1 = none) ∧
      (GOOD_CAPTURE_SCORE ≤ (g.moves.lst.getD g.moves.idx default).score →
        (next_capture g).1 = some (g.moves.lst.getD g.moves.idx default).item)) ∧
    ((next_capture gC8W).1 = some ⟨10, 17, CAPTURE⟩ ∧
     (next_capture (next_capture gC8W).2).1 = some ⟨0, 17, CAPTURE⟩ ∧
     (next_capture (next_capture (next_capture gC8W).2).2).1 = none) := by
  refine ⟨?_, ?_, ?_⟩
  · intro g h0
    have hstage : (generate_moves { g with moves := g.moves.next_stage }).moves.stage =
        stageCapture := by
      rw [generate_moves_stage]
      simp [Moves.next_stage, h0, stageBestMove, stageCapture]
    unfold next_capture
    simp only [h0, if_true, ite_true, if_pos rfl]
    split_ifs
    · exact ⟨hstage, rfl⟩
    · exact ⟨by rw [moves_next_stage]; exact hstage, by rw [moves_next_lst]⟩
  · intro g h0 hlen
    unfold next_capture
    simp only [h0, if_false, ite_false, if_neg h0]
    constructor
    · intro hlt
      rw [if_pos ⟨hlen, hlt⟩]
    · intro hge
      rw [if_neg (by
        intro hc
        exact absurd hc.2 (by omega))]
      unfold Moves.next
      rw [if_pos hlen]
  · decide


/-- Witness for C8: the stage advancement and threshold behavior applied
to the concrete game gC8W and to its post-generation state. -/
theorem next_capture_spec_witness :
    ((next_capture gC8W).2).moves.stage = stageCapture ∧
    (next_capture (next_capture gC8W).2).1 =
      some ((next_capture gC8W).2.moves.lst.getD (next_capture gC8W).2.moves.idx
        default).item :=
  ⟨(next_capture_spec.1 gC8W (by decide)).1,
   ((next_capture_spec.2.1 (next_capture gC8W).2 (by decide) (by decide)).2 (by decide))⟩


theorem U64pow : (18446744073709551616 : Nat) = 2 ^ 64 := by norm_num

theorem testBit_one_shl (f x : Nat) : (1 <<< f).testBit x = true ↔ f = x := by
  have h : (1 : Nat) <<< f = 2 ^ f := by simp [Nat.shiftLeft_eq]
  rw [h, Nat.testBit_two_pow]
  simp

theorem shiftBB_lt (b : Nat) (d : Int) (hb : b < 18446744073709551616) :
    shiftBB b d < 18446744073709551616 := by
  unfold shiftBB
  split_ifs
  · rw [U64pow]
    exact Nat.mod_lt _ (by norm_num)
  · calc b >>> (-d).toNat = b / 2 ^ (-d).toNat := Nat.shiftRight_eq_div_pow b _
      _ ≤ b := Nat.div_le_self _ _
      _ < _ := hb

theorem testBit_shiftBB (b : Nat) (d : Int) (x : Nat) (hb : b < 18446744073709551616) :
    ((shiftBB b d).testBit x = true) ↔
      (x < 64 ∧ ∃ y : Nat, b.testBit y = true ∧ (x : Int) = y + d) := by
  unfold shiftBB
  split_ifs with hd
  · rw [U64pow, Nat.testBit_mod_two_pow]
    simp only [Bool.and_eq_true, decide_eq_true_eq, Nat.testBit_shiftLeft b,
      ge_iff_le]
    constructor
    · rintro ⟨h64, hle, hbit⟩
      exact ⟨h64, x - d.toNat, hbit, by omega⟩
    · rintro ⟨h64, y, hy, hxy⟩
      have h1 : d.toNat ≤ x := by omega
      have h2 : x - d.toNat = y := by omega
      exact ⟨h64, h1, h2 ▸ hy⟩
  · rw [Nat.testBit_shiftRight]
    constructor
    · intro h
      have hy : (-d).toNat + x < 64 := by
        by_contra hc
        rw [testBit_ge_64 hb (by omega)] at h
        exact absurd h (by decide)
      exact ⟨by omega, (-d).toNat + x, h, by omega⟩
    · rintro ⟨h64, y, hy, hxy⟩
      have : (-d).toNat + x = y := by omega
      exact this ▸ hy

theorem fillN_lt (E : Nat) (d : Int) (b : Nat) (hb : b < 18446744073709551616) :
    ∀ n, fillN E d b n < 18446744073709551616 := by
  intro n
  induction n with
  | zero => exact hb
  | succ n ih =>
    rw [fillN]
    rw [U64pow] at ih ⊢
    apply Nat.or_lt_two_pow ih
    calc shiftBB (fillN E d b n) d &&& E ≤ shiftBB (fillN E d b n) d := Nat.and_le_left
      _ < 2 ^ 64 := by rw [← U64pow] at ih ⊢; exact shiftBB_lt _ _ ih

theorem testBit_fillN (E : Nat) (d : Int) (f : Nat) (hf : f < 64) :
    ∀ (n : Nat) (x : Nat),
      ((fillN E d (1 <<< f) n).testBit x = true) ↔
        (∃ j : Nat, j ≤ n ∧ (x : Int) = f + d * j ∧
          (∀ i : Nat, 1 ≤ i → i ≤ j → ∃ u : Nat, (u : Int) = f + d * i ∧ u < 64 ∧
            E.testBit u = true)) := by
  have hseed : (1 : Nat) <<< f < 18446744073709551616 := by
    have h : (1 : Nat) <<< f = 2 ^ f := by simp [Nat.shiftLeft_eq]
    rw [h, U64pow]
    exact Nat.pow_lt_pow_right (by norm_num) hf
  intro n
  induction n with
  | zero =>
    intro x
    rw [fillN, testBit_one_shl]
    constructor
    · rintro rfl
      exact ⟨0, le_refl 0, by push_cast; ring, fun i hi1 hi2 => absurd (le_trans hi1 hi2) (by omega)⟩
    · rintro ⟨j, hj0, hx, _⟩
      have : j = 0 := Nat.le_zero.mp hj0
      subst this
      have : (x : Int) = f := by push_cast at hx; linarith [hx]
      exact_mod_cast this.symm
  | succ n ih =>
    intro x
    rw [fillN]
    simp only [Nat.testBit_or, Nat.testBit_and, Bool.or_eq_true, Bool.and_eq_true]
    rw [ih, testBit_shiftBB _ _ _ (fillN_lt E d _ hseed n)]
    constructor
    · rintro (⟨j, hjn, hx, hchain⟩ | ⟨⟨h64, y, hy, hxy⟩, hE⟩)
      · exact ⟨j, by omega, hx, hchain⟩
      · obtain ⟨j, hjn, hyv, hchain⟩ := (ih y).mp hy
        refine ⟨j + 1, by omega, by push_cast at hyv hxy ⊢; rw [hxy, hyv]; ring, ?_⟩
        intro i hi1 hij
        by_cases hic : i ≤ j
        · exact hchain i hi1 hic
        · have : i = j + 1 := by omega
          subst this
          exact ⟨x, by push_cast at hyv hxy ⊢; rw [hxy, hyv]; ring, h64, hE⟩
    · rintro ⟨j, hjn, hx, hchain⟩
      by_cases hjc : j ≤ n
      · exact Or.inl ⟨j, hjc, hx, hchain⟩
      · have hj : j = n + 1 := by omega
        subst hj
        right
        obtain ⟨u, hu, hu64, huE⟩ := hchain (n + 1) (by omega) (le_refl _)
        have hxu : x = u := by
          have : (x : Int) = u := by rw [hx, hu]
          exact_mod_cast this
        subst hxu
        refine ⟨⟨hu64, ?_⟩, huE⟩
        by_cases hn0 : n = 0
        · subst hn0
          refine ⟨f, ?_, ?_⟩
          · rw [fillN, testBit_one_shl]
          · push_cast at hx ⊢
            rw [hx]; ring
        · obtain ⟨v, hv, hv64, hvE⟩ := hchain n (by omega) (by omega)
          refine ⟨v, ?_, ?_⟩
          · exact (ih v).mpr ⟨n, le_refl n, hv, fun i hi1 hin => hchain i hi1 (by omega)⟩
          · push_cast at hx hv ⊢
            rw [hx, hv]; ring

theorem testBit_empty_mask (occ M u : Nat) (hu : u < 64) :
    ((compl64 occ &&& M).testBit u = true) ↔
      (occ.testBit u = false ∧ M.testBit u = true) := by
  rw [Nat.testBit_and, Bool.and_eq_true, compl64_testBit occ u hu]
  cases occ.testBit u <;> simp

theorem testBit_ray (f t occ M : Nat) (d : Int) (hf : f < 64) :
    ((ray_attacks f occ d M).testBit t = true) ↔
      (∃ k : Nat, 1 ≤ k ∧ k ≤ 8 ∧ (t : Int) = f + d * k ∧ t < 64 ∧ M.testBit t = true ∧
        (∀ i, 1 ≤ i → i < k → ∃ u : Nat, (u : Int) = f + d * i ∧ u < 64 ∧
          M.testBit u = true ∧ occ.testBit u = false)) := by
  have hseed : (1 : Nat) <<< f < 18446744073709551616 := by
    have h : (1 : Nat) <<< f = 2 ^ f := by simp [Nat.shiftLeft_eq]
    rw [h, U64pow]
    exact Nat.pow_lt_pow_right (by norm_num) hf
  unfold ray_attacks dumb7fill
  rw [Nat.testBit_and, Bool.and_eq_true,
    testBit_shiftBB _ _ _ (fillN_lt _ d _ hseed 7)]
  constructor
  · rintro ⟨hMt, ht64, y, hy, hxy⟩
    obtain ⟨j, hj7, hyv, hchain⟩ := (testBit_fillN _ d f hf 7 y).mp hy
    refine ⟨j + 1, by omega, by omega, ?_, ht64, hMt, ?_⟩
    · push_cast at hyv hxy ⊢
      rw [hxy, hyv]; ring
    · intro i hi1 hik
      obtain ⟨u, hu, hu64, huE⟩ := hchain i hi1 (by omega)
      obtain ⟨hocc, hM⟩ := (testBit_empty_mask occ M u hu64).mp huE
      exact ⟨u, hu, hu64, hM, hocc⟩
  · rintro ⟨k, hk1, hk8, ht, ht64, hMt, hcond⟩
    rcases k with _ | j
    · omega
    refine ⟨hMt, ht64, ?_⟩
    by_cases hj0 : j = 0
    · subst hj0
      refine ⟨f, ?_, ?_⟩
      · rw [testBit_fillN _ d f hf]
        exact ⟨0, by omega, by push_cast; ring,
          fun i hi1 hi0 => absurd (le_trans hi1 hi0) (by omega)⟩
      · push_cast at ht ⊢
        rw [ht]; ring
    · obtain ⟨u, hu, hu64, huM, huocc⟩ := hcond j (by omega) (by omega)
      refine ⟨u, ?_, ?_⟩
      · rw [testBit_fillN _ d f hf]
        refine ⟨j, by omega, hu, ?_⟩
        intro i hi1 hij
        obtain ⟨v, hv, hv64, hvM, hvocc⟩ := hcond i hi1 (by omega)
        exact ⟨v, hv, hv64, (testBit_empty_mask occ M v hv64).mpr ⟨hvocc, hvM⟩⟩
      · push_cast at ht hu ⊢
        rw [ht, hu]; ring

theorem ray_symm (f t occ : Nat) (d : Int) (M M' : Nat) (hf : f < 64) (ht : t < 64)
    (hpair : ∀ x y : Nat, x < 64 → y < 64 → (y : Int) = x + d →
      (M.testBit y = true ↔ M'.testBit x = true)) :
    ((ray_attacks f occ d M).testBit t = true) ↔
      ((ray_attacks t occ (-d) M').testBit f = true) := by
  rw [testBit_ray f t occ M d hf, testBit_ray t f occ M' (-d) ht]
  constructor
  · rintro ⟨k, hk1, hk8, hx, ht64, hMt, hcond⟩
    -- all chain squares including the endpoint
    have hsq : ∀ i, 1 ≤ i → i ≤ k → ∃ u : Nat, (u : Int) = f + d * i ∧ u < 64 ∧
        M.testBit u = true := by
      intro i hi1 hik
      by_cases hie : i = k
      · exact ⟨t, by rw [hx, hie], ht64, hMt⟩
      · obtain ⟨u, hu, hu64, huM, _⟩ := hcond i hi1 (by omega)
        exact ⟨u, hu, hu64, huM⟩
    refine ⟨k, hk1, hk8, by rw [hx]; ring, hf, ?_, ?_⟩
    · -- M' holds at f, transferred from M at f + d
      obtain ⟨u, hu, hu64, huM⟩ := hsq 1 (le_refl 1) hk1
      have := (hpair f u hf hu64 (by rw [hu]; push_cast; ring)).mp huM
      exact this
    · intro i hi1 hik
      -- reverse intermediate i corresponds to forward index k - i
      obtain ⟨u, hu, hu64, huM, huocc⟩ := hcond (k - i) (by omega) (by omega)
      obtain ⟨w, hw, hw64, hwM⟩ := hsq (k - i + 1) (by omega) (by omega)
      refine ⟨u, ?_, hu64, ?_, huocc⟩
      · rw [hx, hu]
        push_cast [Nat.cast_sub (by omega : i ≤ k)]
        ring
      · have := (hpair u w hu64 hw64 (by rw [hu, hw]; push_cast [Nat.cast_sub (by omega : i ≤ k)]; ring)).mp hwM
        exact this
  · rintro ⟨k, hk1, hk8, hx, hf64, hMf, hcond⟩
    have hsq : ∀ i, 1 ≤ i → i ≤ k → ∃ u : Nat, (u : Int) = t + (-d) * i ∧ u < 64 ∧
        M'.testBit u = true := by
      intro i hi1 hik
      by_cases hie : i = k
      · exact ⟨f, by rw [hx, hie], hf64, hMf⟩
      · obtain ⟨u, hu, hu64, huM, _⟩ := hcond i hi1 (by omega)
        exact ⟨u, hu, hu64, huM⟩
    refine ⟨k, hk1, hk8, by rw [hx]; ring, ht, ?_, ?_⟩
    · obtain ⟨u, hu, hu64, huM⟩ := hsq 1 (le_refl 1) hk1
      have := (hpair u t hu64 ht (by rw [hu]; push_cast; ring)).mpr huM
      exact this
    · intro i hi1 hik
      obtain ⟨u, hu, hu64, huM, huocc⟩ := hcond (k - i) (by omega) (by omega)
      obtain ⟨w, hw, hw64, hwM⟩ := hsq (k - i + 1) (by omega) (by omega)
      refine ⟨u, ?_, hu64, ?_, huocc⟩
      · rw [hx, hu]
        push_cast [Nat.cast_sub (by omega : i ≤ k)]
        ring
      · have := (hpair w u hw64 hu64 (by rw [hu, hw]; push_cast [Nat.cast_sub (by omega : i ≤ k)]; ring)).mpr hwM
        exact this

theorem testBit_maskH : ∀ y, y < 64 →
    ((0x7F7F7F7F7F7F7F7F : Nat).testBit y = true ↔ y % 8 ≠ 7) := by
  decide

theorem testBit_maskA : ∀ y, y < 64 →
    ((0xFEFEFEFEFEFEFEFE : Nat).testBit y = true ↔ y % 8 ≠ 0) := by
  decide

theorem testBit_maskF : ∀ y, y < 64 → ((0xFFFFFFFFFFFFFFFF : Nat).testBit y = true) := by
  decide

theorem bishop_attacks_symm (f t occ : Nat) (hf : f < 64) (ht : t < 64) :
    ((bishop_attacks f occ).testBit t = true) ↔
      ((bishop_attacks t occ).testBit f = true) := by
  have pUL : ∀ x y : Nat, x < 64 → y < 64 → (y : Int) = x + (UP + LEFT) →
      ((0x7F7F7F7F7F7F7F7F : Nat).testBit y = true ↔
       (0xFEFEFEFEFEFEFEFE : Nat).testBit x = true) := by
    intro x y hx hy hxy
    rw [testBit_maskH y hy, testBit_maskA x hx]
    simp only [UP, LEFT] at hxy
    omega
  have pDL : ∀ x y : Nat, x < 64 → y < 64 → (y : Int) = x + (DOWN + LEFT) →
      ((0x7F7F7F7F7F7F7F7F : Nat).testBit y = true ↔
       (0xFEFEFEFEFEFEFEFE : Nat).testBit x = true) := by
    intro x y hx hy hxy
    rw [testBit_maskH y hy, testBit_maskA x hx]
    simp only [DOWN, LEFT] at hxy
    omega
  have hUL := ray_symm f t occ (UP + LEFT) 0x7F7F7F7F7F7F7F7F 0xFEFEFEFEFEFEFEFE hf ht pUL
  have hDL := ray_symm f t occ (DOWN + LEFT) 0x7F7F7F7F7F7F7F7F 0xFEFEFEFEFEFEFEFE hf ht pDL
  have hDR := ray_symm t f occ (UP + LEFT) 0x7F7F7F7F7F7F7F7F 0xFEFEFEFEFEFEFEFE ht hf pUL
  have hUR := ray_symm t f occ (DOWN + LEFT) 0x7F7F7F7F7F7F7F7F 0xFEFEFEFEFEFEFEFE ht hf pDL
  have e1 : -(UP + LEFT) = DOWN + RIGHT := by decide
  have e2 : -(DOWN + LEFT) = UP + RIGHT := by decide
  rw [e1] at hUL hDR
  rw [e2] at hDL hUR
  unfold bishop_attacks
  simp only [Nat.testBit_or, Bool.or_eq_true]
  constructor
  · rintro (((h | h) | h) | h)
    · exact Or.inl (Or.inr (hUL.mp h))
    · exact Or.inr (hDL.mp h)
    · exact Or.inl (Or.inl (Or.inl (hDR.mpr h)))
    · exact Or.inl (Or.inl (Or.inr (hUR.mpr h)))
  · rintro (((h | h) | h) | h)
    · exact Or.inl (Or.inr (hDR.mp h))
    · exact Or.inr (hUR.mp h)
    · exact Or.inl (Or.inl (Or.inl (hUL.mpr h)))
    · exact Or.inl (Or.inl (Or.inr (hDL.mpr h)))

theorem rook_attacks_symm (f t occ : Nat) (hf : f < 64) (ht : t < 64) :
    ((rook_attacks f occ).testBit t = true) ↔
      ((rook_attacks t occ).testBit f = true) := by
  have pU : ∀ x y : Nat, x < 64 → y < 64 → (y : Int) = x + UP →
      ((0xFFFFFFFFFFFFFFFF : Nat).testBit y = true ↔
       (0xFFFFFFFFFFFFFFFF : Nat).testBit x = true) := by
    intro x y hx hy _
    simp [testBit_maskF y hy, testBit_maskF x hx]
  have pL : ∀ x y : Nat, x < 64 → y < 64 → (y : Int) = x + LEFT →
      ((0x7F7F7F7F7F7F7F7F : Nat).testBit y = true ↔
       (0xFEFEFEFEFEFEFEFE : Nat).testBit x = true) := by
    intro x y hx hy hxy
    rw [testBit_maskH y hy, testBit_maskA x hx]
    simp only [LEFT] at hxy
    omega
  have hU := ray_symm f t occ UP 0xFFFFFFFFFFFFFFFF 0xFFFFFFFFFFFFFFFF hf ht pU
  have hD := ray_symm t f occ UP 0xFFFFFFFFFFFFFFFF 0xFFFFFFFFFFFFFFFF ht hf pU
  have hL := ray_symm f t occ LEFT 0x7F7F7F7F7F7F7F7F 0xFEFEFEFEFEFEFEFE hf ht pL
  have hR := ray_symm t f occ LEFT 0x7F7F7F7F7F7F7F7F 0xFEFEFEFEFEFEFEFE ht hf pL
  have e1 : -UP = DOWN := by decide
  have e2 : -LEFT = RIGHT := by decide
  rw [e1] at hU hD
  rw [e2] at hL hR
  unfold rook_attacks
  simp only [Nat.testBit_or, Bool.or_eq_true]
  constructor
  · rintro (((h | h) | h) | h)
    · exact Or.inl (Or.inl (Or.inr (hU.mp h)))
    · exact Or.inl (Or.inl (Or.inl (hD.mpr h)))
    · exact Or.inr (hL.mp h)
    · exact Or.inl (Or.inr (hR.mpr h))
  · rintro (((h | h) | h) | h)
    · exact Or.inl (Or.inl (Or.inr (hD.mp h)))
    · exact Or.inl (Or.inl (Or.inl (hU.mpr h)))
    · exact Or.inr (hR.mp h)
    · exact Or.inl (Or.inr (hL.mpr h))

theorem and_ne_zero (a b : Nat) :
    a &&& b ≠ 0 ↔ ∃ i, a.testBit i = true ∧ b.testBit i = true := by
  constructor
  · intro h
    obtain ⟨i, hi, _⟩ := Nat.exists_most_significant_bit h
    rw [Nat.testBit_and, Bool.and_eq_true] at hi
    exact ⟨i, hi⟩
  · rintro ⟨i, ha, hb⟩ h0
    have hbit : (a &&& b).testBit i = true := by
      rw [Nat.testBit_and, ha, hb]; rfl
    rw [h0] at hbit
    simp [Nat.zero_testBit] at hbit

theorem testBit_foldr_bits (p : Nat → Bool) (l : List Nat) (x : Nat) :
    ((l.foldr (fun t acc => if p t then acc ||| (1 <<< t) else acc) 0).testBit x = true) ↔
      (x ∈ l ∧ p x = true) := by
  induction l with
  | nil => simp [Nat.zero_testBit]
  | cons t ts ih =>
    simp only [List.foldr_cons, List.mem_cons]
    by_cases hp : p t
    · simp only [if_pos hp, Nat.testBit_or, Bool.or_eq_true, ih, testBit_one_shl]
      constructor
      · rintro (⟨hm, hx⟩ | ht)
        · exact ⟨Or.inr hm, hx⟩
        · exact ⟨Or.inl ht.symm, ht ▸ hp⟩
      · rintro ⟨hm | hm, hx⟩
        · exact Or.inr hm.symm
        · exact Or.inl ⟨hm, hx⟩
    · simp only [if_neg hp, ih]
      constructor
      · rintro ⟨hm, hx⟩
        exact ⟨Or.inr hm, hx⟩
      · rintro ⟨hm | hm, hx⟩
        · exact absurd (hm ▸ hx) hp
        · exact ⟨hm, hx⟩

theorem testBit_bitsOf (p : Nat → Bool) (x : Nat) :
    ((bitsOf p).testBit x = true) ↔ (x < 64 ∧ p x = true) := by
  rw [bitsOf, testBit_foldr_bits, List.mem_range]

theorem knightReach_symm (s t : Nat) : knightReach s t = knightReach t s := by
  have h : ∀ a b : Int, (a - b).natAbs = (b - a).natAbs := fun a b => by omega
  simp only [knightReach]
  rw [h ((s : Int) % 8) ((t : Int) % 8), h ((s : Int) / 8) ((t : Int) / 8)]

theorem kingReach_symm (s t : Nat) : kingReach s t = kingReach t s := by
  have h : ∀ a b : Int, (a - b).natAbs = (b - a).natAbs := fun a b => by omega
  simp only [kingReach]
  rw [h ((s : Int) % 8) ((t : Int) % 8), h ((s : Int) / 8) ((t : Int) / 8)]

theorem mask_knight_symm (s t : Nat) (hs : s < 64) (ht : t < 64) :
    ((PIECE_MASKS KNIGHT s).testBit t = true) ↔ ((PIECE_MASKS KNIGHT t).testBit s = true) := by
  have hm : ∀ q : Nat, PIECE_MASKS KNIGHT q = bitsOf (knightReach q) := by
    intro q; simp [PIECE_MASKS]
  rw [hm, hm, testBit_bitsOf, testBit_bitsOf, knightReach_symm]
  exact ⟨fun ⟨_, h⟩ => ⟨hs, h⟩, fun ⟨_, h⟩ => ⟨ht, h⟩⟩

theorem mask_king_symm (s t : Nat) (hs : s < 64) (ht : t < 64) :
    ((PIECE_MASKS KING s).testBit t = true) ↔ ((PIECE_MASKS KING t).testBit s = true) := by
  have hm : ∀ q : Nat, PIECE_MASKS KING q = bitsOf (kingReach q) := by
    intro q; simp [PIECE_MASKS, KNIGHT, KING]
  rw [hm, hm, testBit_bitsOf, testBit_bitsOf, kingReach_symm]
  exact ⟨fun ⟨_, h⟩ => ⟨hs, h⟩, fun ⟨_, h⟩ => ⟨ht, h⟩⟩

theorem testBit_pawn_attacks (side sq t : Nat) (hsq : sq < 64) :
    ((PAWN_ATTACKS side sq).testBit t = true) ↔
      (t < 64 ∧
        (((t : Int) = sq + ((if side ^^^ 1 = 0 then DOWN else UP) + LEFT) ∧ t % 8 ≠ 7) ∨
         ((t : Int) = sq + ((if side ^^^ 1 = 0 then DOWN else UP) + RIGHT) ∧ t % 8 ≠ 0))) := by
  have hb : (1 : Nat) <<< sq < 18446744073709551616 := by
    rw [Nat.shiftLeft_eq, one_mul]
    exact Nat.pow_lt_pow_right (by norm_num) hsq
  have hFH : compl64 FILE_H = 0x7F7F7F7F7F7F7F7F := by decide
  have hFA : compl64 FILE_A = 0xFEFEFEFEFEFEFEFE := by decide
  rw [PAWN_ATTACKS, hFH, hFA]
  simp only [Nat.testBit_or, Nat.testBit_and, Bool.or_eq_true, Bool.and_eq_true,
    testBit_shiftBB _ _ _ hb, testBit_one_shl]
  constructor
  · rintro (⟨⟨h64, y, hy, hxy⟩, hmask⟩ | ⟨⟨h64, y, hy, hxy⟩, hmask⟩)
    · exact ⟨h64, Or.inl ⟨by rw [hxy, hy], (testBit_maskH t h64).mp hmask⟩⟩
    · exact ⟨h64, Or.inr ⟨by rw [hxy, hy], (testBit_maskA t h64).mp hmask⟩⟩
  · rintro ⟨h64, ⟨hxy, hmask⟩ | ⟨hxy, hmask⟩⟩
    · exact Or.inl ⟨⟨h64, sq, rfl, hxy⟩, (testBit_maskH t h64).mpr hmask⟩
    · exact Or.inr ⟨⟨h64, sq, rfl, hxy⟩, (testBit_maskA t h64).mpr hmask⟩

theorem pawn_attacks_symm (side sq t : Nat) (hs : side < 2) (hsq : sq < 64) (ht : t < 64) :
    ((PAWN_ATTACKS side sq).testBit t = true) ↔
      ((PAWN_ATTACKS (side ^^^ 1) t).testBit sq = true) := by
  rw [testBit_pawn_attacks side sq t hsq, testBit_pawn_attacks (side ^^^ 1) t sq ht]
  interval_cases side
  · have h1 : (0 : Nat) ^^^ 1 = 1 := by decide
    have h2 : (1 : Nat) ^^^ 1 = 0 := by decide
    rw [h1]
    simp only [h1, if_neg (by decide : ¬(1 : Nat) = 0), if_pos rfl, UP, DOWN, LEFT, RIGHT]
    omega
  · have h2 : (1 : Nat) ^^^ 1 = 0 := by decide
    rw [h2]
    simp only [h2, if_pos rfl, if_true, if_neg (by decide : ¬(0 : Nat) ^^^ 1 = 0),
      if_neg (by decide : ¬(1 : Nat) = 0), UP, DOWN, LEFT, RIGHT]
    omega

theorem piece_attacks_pawn_code (side : Nat) (hs : side < 2) (t occ : Nat) :
    piece_attacks ((side ^^^ 1) ||| PAWN) t occ = PAWN_ATTACKS (side ^^^ 1) t := by
  interval_cases side <;> rfl

theorem piece_attacks_knight_code (side : Nat) (hs : side < 2) (t occ : Nat) :
    piece_attacks ((side ^^^ 1) ||| KNIGHT) t occ = PIECE_MASKS KNIGHT t := by
  interval_cases side <;> rfl

theorem piece_attacks_king_code (side : Nat) (hs : side < 2) (t occ : Nat) :
    piece_attacks ((side ^^^ 1) ||| KING) t occ = PIECE_MASKS KING t := by
  interval_cases side <;> rfl

theorem piece_attacks_bishop_code (side : Nat) (hs : side < 2) (t occ : Nat) :
    piece_attacks ((side ^^^ 1) ||| BISHOP) t occ = bishop_attacks t occ := by
  interval_cases side <;> rfl

theorem piece_attacks_rook_code (side : Nat) (hs : side < 2) (t occ : Nat) :
    piece_attacks ((side ^^^ 1) ||| ROOK) t occ = rook_attacks t occ := by
  interval_cases side <;> rfl

theorem piece_attacks_queen_code (side : Nat) (hs : side < 2) (t occ : Nat) :
    piece_attacks ((side ^^^ 1) ||| QUEEN) t occ = bishop_attacks t occ ||| rook_attacks t occ := by
  interval_cases side <;> rfl

/-- C3: `is_attacked g square side` is true exactly when some square `t`
holds an opponent piece (color `side ^ 1`, one of the six kinds) whose
attack set under the full occupancy contains `square`. -/
theorem is_attacked_iff (g : Game) (square side : Nat) (hsq : square < 64) (hs : side < 2)
    (hbb : ∀ k ∈ [PAWN, KNIGHT, KING, BISHOP, ROOK, QUEEN],
      g.bitboards ((side ^^^ 1) ||| k) < 18446744073709551616) :
    (is_attacked g square side = true) ↔
      (∃ t, t < 64 ∧ ∃ k, k ∈ [PAWN, KNIGHT, KING, BISHOP, ROOK, QUEEN] ∧
        ((g.bitboards ((side ^^^ 1) ||| k)).testBit t = true) ∧
        ((piece_attacks ((side ^^^ 1) ||| k) t
          (g.bitboards WHITE ||| g.bitboards BLACK)).testBit square = true)) := by
  have hlt : ∀ k ∈ [PAWN, KNIGHT, KING, BISHOP, ROOK, QUEEN], ∀ i : Nat,
      (g.bitboards ((side ^^^ 1) ||| k)).testBit i = true → i < 64 := by
    intro k hk i hbit
    by_contra hni
    rw [testBit_ge_64 (hbb k hk) (Nat.le_of_not_lt hni)] at hbit
    exact Bool.false_ne_true hbit
  simp only [is_attacked, bne_iff_ne, and_ne_zero, Nat.testBit_or, Bool.or_eq_true]
  constructor
  · rintro ((((⟨i, hA, hB⟩ | ⟨i, hA, hB⟩) | ⟨i, hA, hB⟩) | ⟨i, hA, hB | hB⟩) | ⟨i, hA, hB | hB⟩)
    · have hi := hlt PAWN (by decide) i hB
      refine ⟨i, hi, PAWN, by decide, hB, ?_⟩
      rw [piece_attacks_pawn_code side hs]
      exact (pawn_attacks_symm side square i hs hsq hi).mp hA
    · have hi := hlt KNIGHT (by decide) i hB
      refine ⟨i, hi, KNIGHT, by decide, hB, ?_⟩
      rw [piece_attacks_knight_code side hs]
      exact (mask_knight_symm square i hsq hi).mp hA
    · have hi := hlt KING (by decide) i hB
      refine ⟨i, hi, KING, by decide, hB, ?_⟩
      rw [piece_attacks_king_code side hs]
      exact (mask_king_symm square i hsq hi).mp hA
    · have hi := hlt BISHOP (by decide) i hB
      refine ⟨i, hi, BISHOP, by decide, hB, ?_⟩
      rw [piece_attacks_bishop_code side hs]
      exact (bishop_attacks_symm square i _ hsq hi).mp hA
    · have hi := hlt QUEEN (by decide) i hB
      refine ⟨i, hi, QUEEN, by decide, hB, ?_⟩
      rw [piece_attacks_queen_code side hs, Nat.testBit_or, Bool.or_eq_true]
      exact Or.inl ((bishop_attacks_symm square i _ hsq hi).mp hA)
    · have hi := hlt ROOK (by decide) i hB
      refine ⟨i, hi, ROOK, by decide, hB, ?_⟩
      rw [piece_attacks_rook_code side hs]
      exact (rook_attacks_symm square i _ hsq hi).mp hA
    · have hi := hlt QUEEN (by decide) i hB
      refine ⟨i, hi, QUEEN, by decide, hB, ?_⟩
      rw [piece_attacks_queen_code side hs, Nat.testBit_or, Bool.or_eq_true]
      exact Or.inr ((rook_attacks_symm square i _ hsq hi).mp hA)
  · rintro ⟨t, ht, k, hk, hbit, hatt⟩
    fin_cases hk
    · rw [piece_attacks_pawn_code side hs] at hatt
      exact Or.inl (Or.inl (Or.inl (Or.inl
        ⟨t, (pawn_attacks_symm side square t hs hsq ht).mpr hatt, hbit⟩)))
    · rw [piece_attacks_knight_code side hs] at hatt
      exact Or.inl (Or.inl (Or.inl (Or.inr
        ⟨t, (mask_knight_symm square t hsq ht).mpr hatt, hbit⟩)))
    · rw [piece_attacks_king_code side hs] at hatt
      exact Or.inl (Or.inl (Or.inr ⟨t, (mask_king_symm square t hsq ht).mpr hatt, hbit⟩))
    · rw [piece_attacks_bishop_code side hs] at hatt
      exact Or.inl (Or.inr
        ⟨t, (bishop_attacks_symm square t _ hsq ht).mpr hatt, Or.inl hbit⟩)
    · rw [piece_attacks_rook_code side hs] at hatt
      exact Or.inr ⟨t, (rook_attacks_symm square t _ hsq ht).mpr hatt, Or.inl hbit⟩
    · rw [piece_attacks_queen_code side hs, Nat.testBit_or, Bool.or_eq_true] at hatt
      rcases hatt with hq | hq
      · exact Or.inl (Or.inr
          ⟨t, (bishop_attacks_symm square t _ hsq ht).mpr hq, Or.inr hbit⟩)
      · exact Or.inr ⟨t, (rook_attacks_symm square t _ hsq ht).mpr hq, Or.inr hbit⟩

theorem is_attacked_iff_witness :
    (10 : Nat) < 64 ∧ (0 : Nat) < 2 ∧ is_attacked gC8W 10 0 = true :=
  ⟨by decide, by decide,
    (is_attacked_iff gC8W 10 0 (by decide) (by decide)
      (fun k hk => by fin_cases hk <;> decide)).mpr
      ⟨17, by decide, PAWN, by decide, by decide, by decide⟩⟩

theorem piece_attacks_code2 (t occ : Nat) : piece_attacks 2 t occ = PAWN_ATTACKS 0 t := rfl

theorem piece_attacks_code3 (t occ : Nat) : piece_attacks 3 t occ = PAWN_ATTACKS 1 t := rfl

theorem piece_attacks_code4 (t occ : Nat) : piece_attacks 4 t occ = PIECE_MASKS 4 t := rfl

theorem piece_attacks_code5 (t occ : Nat) : piece_attacks 5 t occ = PIECE_MASKS 4 t := rfl

theorem piece_attacks_code6 (t occ : Nat) : piece_attacks 6 t occ = PIECE_MASKS 6 t := rfl

theorem piece_attacks_code7 (t occ : Nat) : piece_attacks 7 t occ = PIECE_MASKS 6 t := rfl

theorem piece_attacks_code8 (t occ : Nat) : piece_attacks 8 t occ = bishop_attacks t occ := rfl

theorem piece_attacks_code9 (t occ : Nat) : piece_attacks 9 t occ = bishop_attacks t occ := rfl

theorem piece_attacks_code10 (t occ : Nat) : piece_attacks 10 t occ = rook_attacks t occ := rfl

theorem piece_attacks_code11 (t occ : Nat) : piece_attacks 11 t occ = rook_attacks t occ := rfl

theorem piece_attacks_code12 (t occ : Nat) :
    piece_attacks 12 t occ = bishop_attacks t occ ||| rook_attacks t occ := rfl

theorem piece_attacks_code13 (t occ : Nat) :
    piece_attacks 13 t occ = bishop_attacks t occ ||| rook_attacks t occ := rfl

/-- C4: for a game state in which the piece coded `p` sits on `t` (its
bitboard has bit `t` and no other piece bitboard does), `attacks_to s O`
contains `t` exactly when `piece_attacks p t O` contains `s`. -/
theorem attacks_to_iff (g : Game) (s occupied t p : Nat) (hs : s < 64) (ht : t < 64)
    (hp : p ∈ [2, 3, 4, 5, 6, 7, 8, 9, 10, 11, 12, 13])
    (hsit : (g.bitboards p).testBit t = true)
    (hexcl : ∀ q ∈ [2, 3, 4, 5, 6, 7, 8, 9, 10, 11, 12, 13], q ≠ p →
      (g.bitboards q).testBit t = false) :
    ((attacks_to g s occupied).testBit t = true) ↔
      ((piece_attacks p t occupied).testBit s = true) := by
  have hb : ∀ q ∈ [2, 3, 4, 5, 6, 7, 8, 9, 10, 11, 12, 13],
      (g.bitboards q).testBit t = decide (q = p) := by
    intro q hq
    by_cases hqp : q = p
    · subst hqp; simp [hsit]
    · simp [hqp, hexcl q hq hqp]
  have e2 := hb 2 (by decide)
  have e3 := hb 3 (by decide)
  have e4 := hb 4 (by decide)
  have e5 := hb 5 (by decide)
  have e6 := hb 6 (by decide)
  have e7 := hb 7 (by decide)
  have e8 := hb 8 (by decide)
  have e9 := hb 9 (by decide)
  have e10 := hb 10 (by decide)
  have e11 := hb 11 (by decide)
  have e12 := hb 12 (by decide)
  have e13 := hb 13 (by decide)
  simp only [attacks_to, WHITE_PAWN, BLACK_PAWN, WHITE_KNIGHT, BLACK_KNIGHT, WHITE_KING,
    BLACK_KING, WHITE_BISHOP, BLACK_BISHOP, WHITE_ROOK, BLACK_ROOK, WHITE_QUEEN, BLACK_QUEEN,
    KNIGHT, KING, BISHOP, ROOK, Nat.testBit_or, Nat.testBit_and]
  rw [e2, e3, e4, e5, e6, e7, e8, e9, e10, e11, e12, e13]
  have hps : (1 : Nat) ^^^ 1 = 0 := by decide
  have hps0 : (0 : Nat) ^^^ 1 = 1 := by decide
  fin_cases hp
  · have h := pawn_attacks_symm 1 s t (by decide) hs ht
    rw [hps] at h
    simp [piece_attacks_code2, piece_attacks_code3, h]
  · have h := pawn_attacks_symm 0 s t (by decide) hs ht
    rw [hps0] at h
    simp [piece_attacks_code2, piece_attacks_code3, h]
  · have h := mask_knight_symm s t hs ht
    rw [KNIGHT] at h
    simp [piece_attacks_code4, h]
  · have h := mask_knight_symm s t hs ht
    rw [KNIGHT] at h
    simp [piece_attacks_code4, piece_attacks_code5, h]
  · have h := mask_king_symm s t hs ht
    rw [KING] at h
    simp [piece_attacks_code6, h]
  · have h := mask_king_symm s t hs ht
    rw [KING] at h
    simp [piece_attacks_code6, piece_attacks_code7, h]
  · simp [piece_attacks_code8, bishop_attacks_symm s t occupied hs ht]
  · simp [piece_attacks_code8, piece_attacks_code9, bishop_attacks_symm s t occupied hs ht]
  · simp [piece_attacks_code10, rook_attacks_symm s t occupied hs ht]
  · simp [piece_attacks_code10, piece_attacks_code11, rook_attacks_symm s t occupied hs ht]
  · simp [piece_attacks_code8, piece_attacks_code10, piece_attacks_code12, Nat.testBit_or,
      bishop_attacks_symm s t occupied hs ht, rook_attacks_symm s t occupied hs ht]
  · simp [piece_attacks_code8, piece_attacks_code10, piece_attacks_code13, Nat.testBit_or,
      bishop_attacks_symm s t occupied hs ht, rook_attacks_symm s t occupied hs ht]

theorem attacks_to_iff_witness :
    (17 : Nat) < 64 ∧ (0 : Nat) < 64 ∧ (attacks_to gC8W 17 0).testBit 0 = true :=
  ⟨by decide, by decide,
    (attacks_to_iff gC8W 17 0 0 4 (by decide) (by decide) (by decide) (by decide)
      (fun q hq hne => by
        fin_cases hq <;> first | exact absurd rfl hne | decide)).mpr (by decide)⟩
end Littlewing
